import Mathlib

/-!
# Verification of the charly-vm runtime core value encoding and collector

Shallow embedding of the NaN-boxed value representation
(`include/compiler-manager.h`, namespace `Charly`) and of the garbage
collector (`src/vm/gc.cpp`).  The C type `VALUE` is a 64-bit machine word;
we model it as a `Nat` (invariant: `< 2^64`).  Bit-mask operations from the source are
translated to arithmetic on `Nat`: for a mask covering the bits `[lo, hi)`
the C expression `value & mask` corresponds to `value / 2^lo % 2^(hi-lo)`
(times `2^lo` when the placement matters), and `|` of values with disjoint
bits corresponds to `+`.
-/

namespace Charly


/-! ## Constants (`compiler-manager.h`, "Masks for the VALUE type" onwards) -/

/-- `kMaskExponentBits = 0x7ff0000000000000`: the 11 IEEE-754 exponent bits,
bits 52..62. -/
def kMaskExponentBits : Nat := 0x7ff0000000000000

/-- `kBitsNaN = kMaskExponentBits | kMaskQuietBit`: canonical quiet NaN. -/
def kBitsNaN : Nat := 0x7ff8000000000000

/-- `kNaN = kBitsNaN`. -/
def kNaN : Nat := kBitsNaN

/-- `kFalse = kBitsNaN | kITypeFalse`. -/
def kFalse : Nat := 0x7ff9000000000000

/-- `kTrue = kBitsNaN | kITypeTrue`. -/
def kTrue : Nat := 0x7ffa000000000000

/-- `kNull = kBitsNaN | kITypeNull`. -/
def kNull : Nat := 0x7ffb000000000000

/-- `kSignatureInteger = kBitsNaN | kITypeInteger`. -/
def kSignatureInteger : Nat := 0x7ffc000000000000

/-- `kSignatureSymbol = kBitsNaN | kITypeSymbol`. -/
def kSignatureSymbol : Nat := 0x7ffd000000000000

/-- `kSignaturePString = kBitsNaN | kITypePString`. -/
def kSignaturePString : Nat := 0x7ffe000000000000

/-- `kSignatureIString = kBitsNaN | kITypeIString`. -/
def kSignatureIString : Nat := 0x7fff000000000000

/-- `kSignaturePointer = kMaskSignBit | kBitsNaN`. -/
def kSignaturePointer : Nat := 0xfff8000000000000

/-- `kMaxInt = (1 << 47) - 1`. -/
def kMaxInt : Int := 2 ^ 47 - 1

/-- `kMinInt = -(1 << 47)`. -/
def kMinInt : Int := -(2 ^ 47)

/-- `kSignBlock = 0xFFFF000000000000`, used to sign-extend 48-bit integers. -/
def kSignBlock : Nat := 0xffff000000000000

/-- `kMaxIStringLength = 5`. -/
def kMaxIStringLength : Nat := 5

/-- `kMaxPStringLength = 6`. -/
def kMaxPStringLength : Nat := 6

/-! ## Field extraction helpers -/

/-- Top 16 bits of a word: `value & kMaskSignature` shifted down; the C
comparison `(value & kMaskSignature) == kSig` is `signatureOf value = kSig >> 48`. -/
def signatureOf (v : Nat) : Nat := v / 2 ^ 48

/-- Low 48 bits: `value & kMaskPayloadBits` (= `kMaskPointer` = `kMaskInteger`). -/
def payloadOf (v : Nat) : Nat := v % 2 ^ 48

/-- The 11-bit IEEE exponent field, bits 52..62: `value & kMaskExponentBits`
viewed as a field.  `(bits & kMaskExponentBits) == kMaskExponentBits` is
`exponentFieldOf bits = 2047`, and `(~value & kMaskExponentBits) != 0` is
`exponentFieldOf value ≠ 2047`. -/
def exponentFieldOf (v : Nat) : Nat := v / 2 ^ 52 % 2 ^ 11

/-! ## Type checking functions (`charly_is_*` on immediate values) -/

/-- `charly_is_false(v) { return v == kFalse; }` -/
def charly_is_false (v : Nat) : Bool := v == kFalse

/-- `charly_is_true(v) { return v == kTrue; }` -/
def charly_is_true (v : Nat) : Bool := v == kTrue

/-- `charly_is_boolean`. -/
def charly_is_boolean (v : Nat) : Bool := charly_is_false v || charly_is_true v

/-- `charly_is_null(v) { return v == kNull; }` -/
def charly_is_null (v : Nat) : Bool := v == kNull

/-- `charly_is_nan(v) { return v == kNaN; }` -/
def charly_is_nan (v : Nat) : Bool := v == kNaN

/-- `charly_is_float(v) { return charly_is_nan(v) || ((~v & kMaskExponentBits) != 0); }` -/
def charly_is_float (v : Nat) : Bool := charly_is_nan v || exponentFieldOf v != 2047

/-- `charly_is_int(v) { return (v & kMaskSignature) == kSignatureInteger; }` -/
def charly_is_int (v : Nat) : Bool := signatureOf v == 0x7ffc

/-- `charly_is_number`. -/
def charly_is_number (v : Nat) : Bool := charly_is_int v || charly_is_float v

/-- `charly_is_symbol`. -/
def charly_is_symbol (v : Nat) : Bool := signatureOf v == 0x7ffd

/-- `charly_is_pstring`. -/
def charly_is_pstring (v : Nat) : Bool := signatureOf v == 0x7ffe

/-- `charly_is_istring`. -/
def charly_is_istring (v : Nat) : Bool := signatureOf v == 0x7fff

/-- `charly_is_immediate_string`. -/
def charly_is_immediate_string (v : Nat) : Bool :=
  charly_is_istring v || charly_is_pstring v

/-- `charly_is_ptr(v) { return (v & kMaskSignature) == kSignaturePointer; }` -/
def charly_is_ptr (v : Nat) : Bool := signatureOf v == 0xfff8

/-- `charly_as_pointer`: the low 48 bits of a pointer-signature value are the
native address. -/
def charly_as_pointer (v : Nat) : Nat := payloadOf v

/-! ## Integer conversion (`charly_create_integer`, `charly_int_to_int64`) -/

/-- `charly_create_integer(value) { return kSignatureInteger | (value & kMaskInteger); }`
The C operand is a two's-complement `int64_t`; `value & kMaskInteger` keeps the
low 48 bits, i.e. `value mod 2^48` as an unsigned number, and the `|` with the
signature (whose low 48 bits are zero) is an addition. -/
def charly_create_integer (i : Int) : Nat :=
  kSignatureInteger + (i % 2 ^ 48).toNat

/-- `charly_int_to_int64(value) { return (value & kMaskInteger) | ((value & kMaskIntegerSign) ? kSignBlock : 0x00); }`
`kMaskIntegerSign = 0x0000800000000000` tests bit 47; the result bits are
reinterpreted as a two's-complement `int64_t`. -/
def charly_int_to_int64 (v : Nat) : Int :=
  let low := payloadOf v
  let bits := if 2 ^ 47 ≤ low then low + kSignBlock else low
  if 2 ^ 63 ≤ bits then (bits : Int) - 2 ^ 64 else (bits : Int)

/-! ## Double conversion (`charly_create_double`, `charly_double_to_double`)

A C `double` is modelled by its 64-bit IEEE-754 bit pattern (a `Nat < 2^64`):
`BITCAST_DOUBLE` and the `reinterpret_cast` between `double` and the 64-bit
word are then the identity.  A pattern is a NaN iff its exponent field is
all-ones and its mantissa is non-zero; ±infinity has an all-ones exponent
field and zero mantissa; every other pattern is a finite double. -/

/-- The 52-bit mantissa field of a double bit pattern. -/
def mantissaFieldOf (b : Nat) : Nat := b % 2 ^ 52

/-- Bit pattern describes an IEEE-754 NaN. -/
def isNaNBits (b : Nat) : Bool := exponentFieldOf b == 2047 && mantissaFieldOf b != 0

/-- Bit pattern describes ±infinity. -/
def isInfBits (b : Nat) : Bool := exponentFieldOf b == 2047 && mantissaFieldOf b == 0

/-- Bit pattern describes a finite double. -/
def isFiniteBits (b : Nat) : Bool := exponentFieldOf b != 2047

/-- `charly_create_double(value)`:
```
int64_t bits = *reinterpret_cast<int64_t*>(&value);
if ((bits & kMaskExponentBits) == kMaskExponentBits) return kBitsNaN;
return *reinterpret_cast<Nat*>(&value);
```
The argument is the bit pattern of the incoming `double`. -/
def charly_create_double (b : Nat) : Nat :=
  if exponentFieldOf b = 2047 then kBitsNaN else b

/-- `charly_double_to_double(value) { return BITCAST_DOUBLE(value); }` — on bit
patterns this is the identity. -/
def charly_double_to_double (v : Nat) : Nat := v

/-! ## Claims C3 and C4 -/

/-- C3, counterexample: the claim says every *infinite* double is stored
directly, but `charly_create_double` collapses `+∞` (pattern
`0x7ff0000000000000`, an all-ones exponent field with zero mantissa) to the
canonical NaN, so the round trip does not return `+∞`. -/
theorem create_double_inf_not_identity :
    isInfBits 0x7ff0000000000000 = true ∧
    charly_double_to_double (charly_create_double 0x7ff0000000000000) =
      kBitsNaN ∧
    kBitsNaN ≠ 0x7ff0000000000000 := by
  refine ⟨by decide, by decide, by decide⟩

/-- C3 (amended): `charly_create_double` stores every *finite* double directly,
so the round trip through `charly_double_to_double` is the identity on finite
doubles; every NaN input — and also ±infinity — is mapped to the single
canonical quiet-NaN pattern `kBitsNaN`, which satisfies `charly_is_nan`. -/
theorem create_double_spec (b : Nat) (hb : b < 2 ^ 64) :
    (isFiniteBits b = true →
      charly_create_double b = b ∧
      charly_double_to_double (charly_create_double b) = b) ∧
    ((isNaNBits b = true ∨ isInfBits b = true) →
      charly_create_double b = kBitsNaN ∧
      charly_is_nan (charly_create_double b) = true) := by
  constructor
  · intro hfin
    simp only [isFiniteBits, bne_iff_ne, ne_eq, decide_eq_true_eq] at hfin
    simp [charly_create_double, charly_double_to_double, hfin]
  · intro h
    have hexp : exponentFieldOf b = 2047 := by
      rcases h with h | h <;>
      · simp only [isNaNBits, isInfBits, Bool.and_eq_true, beq_iff_eq] at h
        exact h.1
    simp [charly_create_double, hexp, charly_is_nan, kNaN]

/-- Witness for `create_double_spec` at the finite double `1.5`
(pattern `0x3ff8000000000000`). -/
theorem create_double_spec_witness :
    (0x3ff8000000000000 : Nat) < 2 ^ 64 ∧
    ((isFiniteBits 0x3ff8000000000000 = true →
      charly_create_double 0x3ff8000000000000 = 0x3ff8000000000000 ∧
      charly_double_to_double (charly_create_double 0x3ff8000000000000) =
        0x3ff8000000000000) ∧
    ((isNaNBits 0x3ff8000000000000 = true ∨ isInfBits 0x3ff8000000000000 = true) →
      charly_create_double 0x3ff8000000000000 = kBitsNaN ∧
      charly_is_nan (charly_create_double 0x3ff8000000000000) = true)) :=
  ⟨by decide, create_double_spec 0x3ff8000000000000 (by decide)⟩

/-- Closed form of `charly_int_to_int64`: the low 48 bits of the value,
interpreted as a 48-bit two's-complement number. -/
lemma int_to_int64_eq (v : Nat) :
    charly_int_to_int64 v =
      if 2 ^ 47 ≤ v % 2 ^ 48 then ((v % 2 ^ 48 : Nat) : Int) - 2 ^ 48
      else ((v % 2 ^ 48 : Nat) : Int) := by
  unfold charly_int_to_int64 payloadOf kSignBlock
  have hlt : v % 2 ^ 48 < 2 ^ 48 := Nat.mod_lt _ (by norm_num)
  rcases le_or_lt (2 ^ 47) (v % 2 ^ 48) with hge | hsm
  · simp only [hge, if_true]
    have hbig : (2 : Nat) ^ 63 ≤ v % 2 ^ 48 + 0xffff000000000000 := by omega
    simp only [hbig, if_true]
    push_cast
    omega
  · have hn : ¬ (2 ^ 47 ≤ v % 2 ^ 48) := by omega
    simp only [hn, if_false]
    have hsmall : ¬ ((2 : Nat) ^ 63 ≤ v % 2 ^ 48) := by omega
    simp only [hsmall, if_false]

/-- Decoding after encoding is the identity on `[kMinInt, kMaxInt]`. -/
lemma decode_create_integer (i : Int) (hlo : kMinInt ≤ i) (hhi : i ≤ kMaxInt) :
    charly_int_to_int64 (charly_create_integer i) = i := by
  simp only [kMinInt, kMaxInt] at hlo hhi
  rw [int_to_int64_eq]
  unfold charly_create_integer kSignatureInteger
  have h0 : 0 ≤ i % 2 ^ 48 := Int.emod_nonneg i (by norm_num)
  have h1 : i % 2 ^ 48 < 2 ^ 48 := Int.emod_lt_of_pos i (by norm_num)
  split <;> omega

/-- C4: for every 48-bit signed integer `i` with `kMinInt ≤ i ≤ kMaxInt`,
decoding after encoding is the identity:
`charly_int_to_int64 (charly_create_integer i) = i`; bit 47 of the stored
payload is sign-extended on read, so negative integers survive the round trip. -/
theorem int_roundtrip (i : Int) (hlo : kMinInt ≤ i) (hhi : i ≤ kMaxInt) :
    charly_int_to_int64 (charly_create_integer i) = i :=
  decode_create_integer i hlo hhi

/-- Witness for `int_roundtrip` at `i = -12345`. -/
theorem int_roundtrip_witness :
    kMinInt ≤ (-12345 : Int) ∧ (-12345 : Int) ≤ kMaxInt ∧
    charly_int_to_int64 (charly_create_integer (-12345)) = -12345 :=
  ⟨by decide, by decide, int_roundtrip (-12345) (by decide) (by decide)⟩

/-! ## IEEE-754 binary64 semantics on bit patterns

The arithmetic helpers (`charly_add_number`, …) fall back to C `double`
arithmetic when an operand is a float.  We model a double by its bit pattern
and give the float operations exact semantics: decode to an exact rational
(or NaN/∞), compute, and round the result back to the nearest representable
binary64 value (ties to even), which is what IEEE-754 prescribes for the
C operators.  NaN results are represented by the canonical quiet NaN
`kBitsNaN`; the VM never looks at any other NaN payload because every float
result is passed through `charly_create_double`, which canonicalises NaNs. -/

/-- Classification of a decoded double: NaN, ±infinity, or a finite value
(carried as an exact rational, sign included). -/
inductive F64Kind where
  | nan : F64Kind
  | inf : F64Kind
  | fin : ℚ → F64Kind

/-- A decoded double: sign bit plus classification. -/
structure F64 where
  sign : Bool
  kind : F64Kind

/-- Decode a binary64 bit pattern to its exact value. -/
def f64decode (b : Nat) : F64 :=
  let sign := decide (2 ^ 63 ≤ b)
  let e := exponentFieldOf b
  let m := mantissaFieldOf b
  if e = 2047 then
    if m = 0 then ⟨sign, .inf⟩ else ⟨sign, .nan⟩
  else
    let mag : ℚ :=
      if e = 0 then (m : ℚ) * 2 ^ (-(1074 : ℤ))
      else ((2 ^ 52 + m : Nat) : ℚ) * 2 ^ ((e : ℤ) - 1075)
    ⟨sign, .fin (if sign then -mag else mag)⟩

/-- Round a non-negative rational to the nearest integer, ties to even. -/
def roundRatEven (q : ℚ) : Nat :=
  let f := (⌊q⌋).toNat
  let r := q - ⌊q⌋
  if r < 1 / 2 then f
  else if 1 / 2 < r then f + 1
  else if f % 2 = 0 then f else f + 1

/-- Encode a non-negative magnitude `q` with the given sign bit as a binary64
bit pattern, rounding to nearest (ties to even); overflow gives ±∞. -/
def f64encodeFin (sign : Bool) (q : ℚ) : Nat :=
  let signBit := if sign then 2 ^ 63 else 0
  if q ≤ 0 then signBit
  else
    let e0 : ℤ := (Nat.log2 q.num.toNat : ℤ) - (Nat.log2 q.den : ℤ)
    let e2 : ℤ := if q < 2 ^ e0 then e0 - 1 else e0
    if e2 < -1022 then
      signBit + roundRatEven (q * 2 ^ (1074 : ℤ))
    else if 1023 < e2 then
      signBit + 0x7ff0000000000000
    else
      let mraw := roundRatEven (q * 2 ^ (52 - e2))
      if e2 = 1023 ∧ mraw = 2 ^ 53 then signBit + 0x7ff0000000000000
      else signBit + (e2 + 1022).toNat * 2 ^ 52 + mraw

/-- Encode a signed exact rational as a binary64 pattern (zero gets `+0`). -/
def f64encodeSigned (s : ℚ) : Nat :=
  if s < 0 then f64encodeFin true (-s) else f64encodeFin false s

/-- Bit pattern of ±∞. -/
def f64infBits (sign : Bool) : Nat :=
  (if sign then 2 ^ 63 else 0) + 0x7ff0000000000000

/-- Flip the sign bit (IEEE negation). -/
def f64neg (b : Nat) : Nat := if 2 ^ 63 ≤ b then b - 2 ^ 63 else b + 2 ^ 63

/-- IEEE-754 binary64 addition on bit patterns (round to nearest even). -/
def f64add (a b : Nat) : Nat :=
  match f64decode a, f64decode b with
  | ⟨_, .nan⟩, _ => kBitsNaN
  | _, ⟨_, .nan⟩ => kBitsNaN
  | ⟨sa, .inf⟩, ⟨sb, .inf⟩ => if sa = sb then f64infBits sa else kBitsNaN
  | ⟨sa, .inf⟩, ⟨_, .fin _⟩ => f64infBits sa
  | ⟨_, .fin _⟩, ⟨sb, .inf⟩ => f64infBits sb
  | ⟨sa, .fin qa⟩, ⟨sb, .fin qb⟩ =>
    let s := qa + qb
    if s = 0 then (if sa && sb then 2 ^ 63 else 0) else f64encodeSigned s

/-- IEEE-754 binary64 subtraction: `x - y = x + (-y)` exactly. -/
def f64sub (a b : Nat) : Nat := f64add a (f64neg b)

/-- IEEE-754 binary64 multiplication on bit patterns. -/
def f64mul (a b : Nat) : Nat :=
  match f64decode a, f64decode b with
  | ⟨_, .nan⟩, _ => kBitsNaN
  | _, ⟨_, .nan⟩ => kBitsNaN
  | ⟨sa, .inf⟩, ⟨sb, .inf⟩ => f64infBits (sa != sb)
  | ⟨sa, .inf⟩, ⟨sb, .fin qb⟩ => if qb = 0 then kBitsNaN else f64infBits (sa != sb)
  | ⟨sa, .fin qa⟩, ⟨sb, .inf⟩ => if qa = 0 then kBitsNaN else f64infBits (sa != sb)
  | ⟨sa, .fin qa⟩, ⟨sb, .fin qb⟩ =>
    let p := qa * qb
    if p = 0 then (if sa != sb then 2 ^ 63 else 0) else f64encodeSigned p

/-- C `fmod` on binary64 bit patterns: the exact remainder
`x − trunc(x/y)·y` (always exactly representable), with `fmod(x, ±∞) = x`,
and NaN for NaN operands, infinite `x`, or zero `y`. -/
def f64fmod (a b : Nat) : Nat :=
  match f64decode a, f64decode b with
  | ⟨_, .nan⟩, _ => kBitsNaN
  | _, ⟨_, .nan⟩ => kBitsNaN
  | ⟨_, .inf⟩, _ => kBitsNaN
  | ⟨_, .fin _⟩, ⟨_, .inf⟩ => a
  | ⟨sa, .fin qa⟩, ⟨_, .fin qb⟩ =>
    if qb = 0 then kBitsNaN
    else
      let n := ⌊|qa| / |qb|⌋
      let r := |qa| - (n : ℚ) * |qb|
      if r = 0 then (if sa then 2 ^ 63 else 0) else f64encodeFin sa r

/-- C conversion `int64_t → double`: exact for `|i| < 2^53`, otherwise round
to nearest even. -/
def doubleOfInt (i : Int) : Nat :=
  if i < 0 then f64encodeFin true (-(i : ℚ)) else f64encodeFin false (i : ℚ)

/-! ## Number construction and arithmetic
(`charly_create_number`, `charly_add_number`, …) -/

/-- `charly_number_to_double(value)`: floats convert by bit cast, integers by
the C `int64_t → double` conversion (`charly_int_to_double`). -/
def charly_number_to_double (v : Nat) : Nat :=
  if charly_is_float v then charly_double_to_double v
  else doubleOfInt (charly_int_to_int64 v)

/-- The `int64_t` overload of `charly_create_number`:
```
if (value >= kMaxInt || value <= kMinInt) return charly_create_double(value);
return charly_create_integer(value);
```
(the conversion of the `int64_t` to `double` is `doubleOfInt`). -/
def charly_create_number_int (i : Int) : Nat :=
  if kMaxInt ≤ i ∨ i ≤ kMinInt then charly_create_double (doubleOfInt i)
  else charly_create_integer i

/-- The `double` overload of `charly_create_number`:
```
double intpart;
if (modf(value, &intpart) == 0.0 && value <= kMaxInt && value >= kMinInt)
  return charly_create_integer((int64_t)value);
return charly_create_double(value);
```
`modf` returns a zero fractional part exactly for integral values (and for
±∞, which the range comparisons then reject — as does the model, since an
infinity does not decode to a finite rational); comparisons involving a NaN
are false in C, and a NaN does not decode to a finite rational either. -/
def charly_create_number_double (b : Nat) : Nat :=
  match (f64decode b).kind with
  | .fin q =>
    if q.den = 1 ∧ q ≤ ((2 : ℚ) ^ 47 - 1) ∧ (-(2 : ℚ) ^ 47) ≤ q then
      charly_create_integer q.num
    else charly_create_double b
  | _ => charly_create_double b

/-- `charly_add_number`: both operands integers → integer addition through
`charly_create_number (int64_t)`; otherwise double addition through
`charly_create_number (double)`. -/
def charly_add_number (l r : Nat) : Nat :=
  if charly_is_int l && charly_is_int r then
    charly_create_number_int (charly_int_to_int64 l + charly_int_to_int64 r)
  else
    charly_create_number_double
      (f64add (charly_number_to_double l) (charly_number_to_double r))

/-- `charly_sub_number`. -/
def charly_sub_number (l r : Nat) : Nat :=
  if charly_is_int l && charly_is_int r then
    charly_create_number_int (charly_int_to_int64 l - charly_int_to_int64 r)
  else
    charly_create_number_double
      (f64sub (charly_number_to_double l) (charly_number_to_double r))

/-- `charly_mul_number`. -/
def charly_mul_number (l r : Nat) : Nat :=
  if charly_is_int l && charly_is_int r then
    charly_create_number_int (charly_int_to_int64 l * charly_int_to_int64 r)
  else
    charly_create_number_double
      (f64mul (charly_number_to_double l) (charly_number_to_double r))

/-- The C `%` on `int64_t`, made partial to record that evaluating it with a
zero divisor is undefined behaviour; `Int.tmod` is C's truncated remainder. -/
def intTmodChecked (a b : Int) : Option Int :=
  if b = 0 then none else some (Int.tmod a b)

/-- `charly_mod_number`:
```
if (charly_is_int(left) && charly_is_int(right)) {
  if (charly_int_to_int64(right) == 0) return kNaN;
  return charly_create_number(charly_int_to_int64(left) % charly_int_to_int64(right));
}
return charly_create_number(std::fmod(..., ...));
```
The integer remainder is routed through `intTmodChecked` so that the
impossibility of a division by zero is visible as `≠ none`. -/
def charly_mod_number (l r : Nat) : Option Nat :=
  if charly_is_int l && charly_is_int r then
    if charly_int_to_int64 r = 0 then some kNaN
    else
      (intTmodChecked (charly_int_to_int64 l) (charly_int_to_int64 r)).map
        charly_create_number_int
  else
    some (charly_create_number_double
      (f64fmod (charly_number_to_double l) (charly_number_to_double r)))

/-! ## Helper lemmas for claims C6 and C7 -/

/-- Encoding any 48-bit payload yields an integer-tagged value. -/
lemma is_int_create_integer (i : Int) :
    charly_is_int (charly_create_integer i) = true := by
  have h0 : 0 ≤ i % 2 ^ 48 := Int.emod_nonneg i (by norm_num)
  have h1 : i % 2 ^ 48 < 2 ^ 48 := Int.emod_lt_of_pos i (by norm_num)
  have h2 : (i % 2 ^ 48).toNat < 2 ^ 48 := by omega
  simp only [charly_is_int, charly_create_integer, signatureOf, kSignatureInteger,
    beq_iff_eq]
  omega

/-- Re-encoding the decoded payload of an integer-tagged value restores the
value. -/
lemma create_integer_decode (a : Nat) (ha : charly_is_int a = true) :
    charly_create_integer (charly_int_to_int64 a) = a := by
  have ha' : (a : Nat) / 2 ^ 48 = 0x7ffc := by
    simpa [charly_is_int, signatureOf] using ha
  have hlt : a % 2 ^ 48 < 2 ^ 48 := Nat.mod_lt _ (by norm_num)
  rw [int_to_int64_eq]
  unfold charly_create_integer kSignatureInteger
  split <;> omega

/-- In the safe range, `charly_create_number (int64_t)` stays an integer. -/
lemma create_number_int_safe (r : Int) (h : kMinInt < r ∧ r < kMaxInt) :
    charly_create_number_int r = charly_create_integer r := by
  unfold charly_create_number_int
  have hn : ¬ (kMaxInt ≤ r ∨ r ≤ kMinInt) := by
    unfold kMinInt kMaxInt at h ⊢
    omega
  rw [if_neg hn]

/-- `charly_create_double` always yields a float-tagged value. -/
lemma is_float_create_double (x : Nat) :
    charly_is_float (charly_create_double x) = true := by
  unfold charly_create_double
  split
  · decide
  · rename_i hx
    simp [charly_is_float, hx]

/-- A float-tagged value is never integer-tagged: the integer signature forces
an all-ones exponent field. -/
lemma not_int_create_double (x : Nat) :
    charly_is_int (charly_create_double x) = false := by
  unfold charly_create_double
  split
  · decide
  · rename_i hx
    simp only [charly_is_int, signatureOf, beq_eq_false_iff_ne, ne_eq]
    intro hsig
    apply hx
    unfold exponentFieldOf
    omega

/-- C6: for two integer-tagged operands, `charly_add_number`,
`charly_sub_number` and `charly_mul_number` return the integer-tagged exact
result whenever it lies strictly inside the safe range
`(kMinInt, kMaxInt)` — the complement of the promotion guard
`value >= kMaxInt || value <= kMinInt` — and otherwise promote to a
float-tagged double; consequently `sub (add a b) b = a` whenever neither the
addition nor the subtraction promotes. -/
theorem number_arith_int_spec (a b : Nat)
    (ha : charly_is_int a = true) (hb : charly_is_int b = true) :
    let A := charly_int_to_int64 a
    let B := charly_int_to_int64 b
    ((kMinInt < A + B ∧ A + B < kMaxInt) →
      charly_add_number a b = charly_create_integer (A + B) ∧
      charly_is_int (charly_add_number a b) = true) ∧
    (¬(kMinInt < A + B ∧ A + B < kMaxInt) →
      charly_is_float (charly_add_number a b) = true ∧
      charly_is_int (charly_add_number a b) = false) ∧
    ((kMinInt < A - B ∧ A - B < kMaxInt) →
      charly_sub_number a b = charly_create_integer (A - B) ∧
      charly_is_int (charly_sub_number a b) = true) ∧
    (¬(kMinInt < A - B ∧ A - B < kMaxInt) →
      charly_is_float (charly_sub_number a b) = true ∧
      charly_is_int (charly_sub_number a b) = false) ∧
    ((kMinInt < A * B ∧ A * B < kMaxInt) →
      charly_mul_number a b = charly_create_integer (A * B) ∧
      charly_is_int (charly_mul_number a b) = true) ∧
    (¬(kMinInt < A * B ∧ A * B < kMaxInt) →
      charly_is_float (charly_mul_number a b) = true ∧
      charly_is_int (charly_mul_number a b) = false) ∧
    ((kMinInt < A + B ∧ A + B < kMaxInt) → (kMinInt < A ∧ A < kMaxInt) →
      charly_sub_number (charly_add_number a b) b = a) := by
  intro A B
  have hadd : charly_add_number a b = charly_create_number_int (A + B) := by
    simp [charly_add_number, ha, hb]
  have hsub : charly_sub_number a b = charly_create_number_int (A - B) := by
    simp [charly_sub_number, ha, hb]
  have hmul : charly_mul_number a b = charly_create_number_int (A * B) := by
    simp [charly_mul_number, ha, hb]
  have hprom : ∀ r : Int, ¬(kMinInt < r ∧ r < kMaxInt) →
      charly_create_number_int r = charly_create_double (doubleOfInt r) := by
    intro r hr
    unfold charly_create_number_int
    have hc : kMaxInt ≤ r ∨ r ≤ kMinInt := by
      unfold kMinInt kMaxInt at hr ⊢
      omega
    rw [if_pos hc]
  refine ⟨?_, ?_, ?_, ?_, ?_, ?_, ?_⟩
  · intro hsafe
    rw [hadd, create_number_int_safe _ hsafe]
    exact ⟨rfl, is_int_create_integer _⟩
  · intro hns
    rw [hadd, hprom _ hns]
    exact ⟨is_float_create_double _, not_int_create_double _⟩
  · intro hsafe
    rw [hsub, create_number_int_safe _ hsafe]
    exact ⟨rfl, is_int_create_integer _⟩
  · intro hns
    rw [hsub, hprom _ hns]
    exact ⟨is_float_create_double _, not_int_create_double _⟩
  · intro hsafe
    rw [hmul, create_number_int_safe _ hsafe]
    exact ⟨rfl, is_int_create_integer _⟩
  · intro hns
    rw [hmul, hprom _ hns]
    exact ⟨is_float_create_double _, not_int_create_double _⟩
  · intro hsafeAB hsafeA
    rw [hadd, create_number_int_safe _ hsafeAB]
    have hint : charly_is_int (charly_create_integer (A + B)) = true :=
      is_int_create_integer _
    have hdec : charly_int_to_int64 (charly_create_integer (A + B)) = A + B :=
      decode_create_integer (A + B) (le_of_lt hsafeAB.1) (le_of_lt hsafeAB.2)
    have : charly_sub_number (charly_create_integer (A + B)) b =
        charly_create_number_int
          (charly_int_to_int64 (charly_create_integer (A + B)) - B) := by
      simp [charly_sub_number, hint, hb]
    rw [this, hdec]
    have : A + B - B = A := by ring
    rw [this, create_number_int_safe _ hsafeA]
    exact create_integer_decode a ha

/-- Witness for `number_arith_int_spec` at `a = 10`, `b = 32`: the sum stays
in the safe range and round-trips. -/
theorem number_arith_int_spec_witness :
    charly_is_int (charly_create_integer 10) = true ∧
    charly_add_number (charly_create_integer 10) (charly_create_integer 32) =
      charly_create_integer 42 ∧
    charly_sub_number
        (charly_add_number (charly_create_integer 10) (charly_create_integer 32))
        (charly_create_integer 32) =
      charly_create_integer 10 := by
  have h := number_arith_int_spec (charly_create_integer 10)
    (charly_create_integer 32) (by decide) (by decide)
  refine ⟨by decide, ?_, ?_⟩
  · have h1 := h.1 (by decide)
    have he : charly_int_to_int64 (charly_create_integer 10) +
        charly_int_to_int64 (charly_create_integer 32) = 42 := by decide
    rw [he] at h1
    exact h1.1
  · have h7 := h.2.2.2.2.2.2 (by decide) (by decide)
    exact h7

/-- C7: `charly_mod_number` on two integer-tagged operands returns the
truncated remainder (`Int.tmod`) through `charly_create_number (int64_t)`,
except that a zero right operand short-circuits to the canonical NaN before
any integer division; with a float operand it computes `fmod` on the
operands converted to double.  In every case the result is `some _`: the
guarded integer division (`intTmodChecked`) is never evaluated with a zero
divisor. -/
theorem mod_number_spec (l r : Nat) :
    (charly_is_int l = true → charly_is_int r = true →
      (charly_int_to_int64 r = 0 → charly_mod_number l r = some kNaN) ∧
      (charly_int_to_int64 r ≠ 0 →
        charly_mod_number l r =
          some (charly_create_number_int
            (Int.tmod (charly_int_to_int64 l) (charly_int_to_int64 r))))) ∧
    (¬(charly_is_int l = true ∧ charly_is_int r = true) →
      charly_mod_number l r =
        some (charly_create_number_double
          (f64fmod (charly_number_to_double l) (charly_number_to_double r)))) ∧
    charly_mod_number l r ≠ none := by
  refine ⟨?_, ?_, ?_⟩
  · intro hl hr
    constructor
    · intro hz
      simp [charly_mod_number, hl, hr, hz]
    · intro hnz
      simp [charly_mod_number, hl, hr, hnz, intTmodChecked]
  · intro hni
    have hfalse : (charly_is_int l && charly_is_int r) = false := by
      cases hl : charly_is_int l <;> cases hr : charly_is_int r <;> simp_all
    simp [charly_mod_number, hfalse]
  · unfold charly_mod_number
    split
    · split
      · simp
      · simp [intTmodChecked, *]
    · simp

/-- Witness for `mod_number_spec`: `7 % 3 = 1` on integer-tagged operands,
and `7 % 0` gives the canonical NaN. -/
theorem mod_number_spec_witness :
    charly_mod_number (charly_create_integer 7) (charly_create_integer 3) =
      some (charly_create_number_int 1) ∧
    charly_mod_number (charly_create_integer 7) (charly_create_integer 0) =
      some kNaN := by
  constructor
  · have h := (mod_number_spec (charly_create_integer 7)
      (charly_create_integer 3)).1 (by decide) (by decide)
    have h2 := h.2 (by decide)
    have he : Int.tmod (charly_int_to_int64 (charly_create_integer 7))
        (charly_int_to_int64 (charly_create_integer 3)) = 1 := by decide
    rw [he] at h2
    exact h2
  · have h := (mod_number_spec (charly_create_integer 7)
      (charly_create_integer 0)).1 (by decide) (by decide)
    exact h.1 (by decide)

/-! ## Heap cells

Every heap value starts with a `Basic` header `{f1, f2, mark, type}`; the
payload is one of the structs `Object`, `Array`, `String`, `Function`,
`CFunction`, `Generator`, `Class`, `Frame`, `CatchTable`, `CPointer`, or the
dead-cell freelist link.  We encode the C tagged union as a sum type whose
constructor plays the role of the 5-bit `type` tag, and keep the header flags
(`f1`, `f2`, `mark`) alongside.  C++ heap containers
(`std::unordered_map<VALUE, VALUE>*`, `std::vector<VALUE>*`, string buffers)
are modelled as association lists / lists; native pointers (code addresses,
`void*`) are `Nat` addresses, with `0` for `nullptr`.  A `Frame`'s locals are
a single list (the C union of the inline small-frame array and the heap
vector; the `f1` small-frame flag only selects the storage form, which both
`read_local` and `lvarcount` abstract over). -/

inductive CellData where
  | dead (next : Nat)
  | klass (name : Nat) (constructorV : Nat) (member_properties : List Nat)
      (prototype : Nat) (parent_class : Nat) (container : List (Nat × Nat))
  | object (klassV : Nat) (container : List (Nat × Nat))
  | array (data : List Nat)
  | string (bytes : List Nat)
  | function (name : Nat) (argc : Nat) (minimum_argc : Nat) (lvarcount : Nat)
      (context : Nat) (body_address : Nat) (bound_self_set : Bool)
      (bound_self : Nat) (host_class : Nat) (container : List (Nat × Nat))
  | cfunction (name : Nat) (pointer : Nat) (argc : Nat)
      (container : List (Nat × Nat)) (thread_policy : Nat)
      (push_return_value : Bool)
  | generator (name : Nat) (context_frame : Nat) (boot_function : Nat)
      (context_catchtable : Nat) (context_stack : List Nat)
      (resume_address : Nat) (bound_self_set : Bool) (bound_self : Nat)
      (container : List (Nat × Nat))
  | frame (parent : Nat) (parent_environment_frame : Nat)
      (last_active_catchtable : Nat) (caller_value : Nat) (selfValue : Nat)
      (locals : List Nat) (origin_address : Nat) (return_address : Nat)
  | catchtable (address : Nat) (stacksize : Nat) (frameRef : Nat) (parent : Nat)
  | cpointer (dataPtr : Nat) (destructor : Nat)
  deriving DecidableEq

/-- A heap cell: the `Basic` header flags plus the typed payload. -/
structure Cell where
  f1 : Bool
  f2 : Bool
  mark : Bool
  data : CellData
  deriving DecidableEq

/-- Memory: cell contents at every address.  (Addresses not belonging to any
arena are never touched by the modelled code.) -/
abbrev Heap := Nat → Cell

/-- `ValueType` tag of a payload, as in the `enum ValueType`
(`kTypeDead = 0 … kTypeCPointer = 10`). -/
def cellTypeOf : CellData → Nat
  | .dead _ => 0
  | .klass _ _ _ _ _ _ => 1
  | .object _ _ => 2
  | .array _ => 3
  | .string _ => 4
  | .function _ _ _ _ _ _ _ _ _ _ => 5
  | .cfunction _ _ _ _ _ _ => 6
  | .generator _ _ _ _ _ _ _ _ _ => 7
  | .frame _ _ _ _ _ _ _ _ => 8
  | .catchtable _ _ _ _ => 9
  | .cpointer _ _ => 10

/-- `charly_is_heap_type(value, type)`:
`charly_is_on_heap(value) && charly_as_basic(value)->type == type`. -/
def charly_is_heap_type (h : Heap) (v : Nat) (t : Nat) : Bool :=
  charly_is_ptr v && cellTypeOf ((h (charly_as_pointer v)).data) == t

/-- `charly_is_dead`. -/
def charly_is_dead (h : Heap) (v : Nat) : Bool := charly_is_heap_type h v 0

/-- `charly_is_class`. -/
def charly_is_class (h : Heap) (v : Nat) : Bool := charly_is_heap_type h v 1

/-- `charly_is_object`. -/
def charly_is_object (h : Heap) (v : Nat) : Bool := charly_is_heap_type h v 2

/-- `charly_is_array`. -/
def charly_is_array (h : Heap) (v : Nat) : Bool := charly_is_heap_type h v 3

/-- `charly_is_hstring`. -/
def charly_is_hstring (h : Heap) (v : Nat) : Bool := charly_is_heap_type h v 4

/-- `charly_is_function`. -/
def charly_is_function (h : Heap) (v : Nat) : Bool := charly_is_heap_type h v 5

/-- `charly_is_cfunction`. -/
def charly_is_cfunction (h : Heap) (v : Nat) : Bool := charly_is_heap_type h v 6

/-- `charly_is_generator`. -/
def charly_is_generator (h : Heap) (v : Nat) : Bool := charly_is_heap_type h v 7

/-- `Generator::finished()` reads the `f1` flag of the `Basic` header. -/
def generator_finished (h : Heap) (v : Nat) : Bool := (h (charly_as_pointer v)).f1

/-- An IEEE double compares equal to `0.0` exactly when its bit pattern is
`+0.0` (all zeros) or `-0.0` (only the sign bit), i.e. when the pattern is
divisible by `2^63`; NaN, infinities and all other patterns compare unequal. -/
def doubleBitsEqZero (b : Nat) : Bool := b % 2 ^ 63 == 0

/-- `charly_truthyness(value)`:
```
if (value == kNaN) return false;
if (value == kNull) return false;
if (value == kFalse) return false;
if (charly_is_int(value)) return charly_int_to_int64(value) != 0;
if (charly_is_float(value)) return charly_double_to_double(value) != 0;
if (charly_is_generator(value)) return !charly_as_generator(value)->finished();
return true;
```-/
def charly_truthyness (h : Heap) (v : Nat) : Bool :=
  if v == kNaN then false
  else if v == kNull then false
  else if v == kFalse then false
  else if charly_is_int v then charly_int_to_int64 v != 0
  else if charly_is_float v then !(doubleBitsEqZero (charly_double_to_double v))
  else if charly_is_generator h v then !(generator_finished h v)
  else true

/-- C5: `charly_truthyness v` is `false` exactly for `v` in
{`false`, `null`, integer `0` (the value `kSignatureInteger`), float `+0.0`
(pattern `0`), float `-0.0` (pattern `2^63`), the canonical NaN, a finished
generator} — and `true` for every other value (in particular empty strings,
arrays and objects, which fall through to the final `return true`).
The hypothesis `_hvalid` records the C precondition that a pointer-tagged
value may be dereferenced, i.e. is not a null pointer. -/
theorem truthyness_spec (h : Heap) (v : Nat) (hv : v < 2 ^ 64)
    (_hvalid : charly_is_ptr v = true → charly_as_pointer v ≠ 0) :
    charly_truthyness h v = false ↔
      (v = kFalse ∨ v = kNull ∨ v = kSignatureInteger ∨
       v = 0 ∨ v = 2 ^ 63 ∨ v = kNaN ∨
       (charly_is_generator h v = true ∧ generator_finished h v = true)) := by
  have hbeq : ∀ a b : Nat, ((a == b) = true) = (a = b) := by
    intro a b; simp
  constructor
  · intro hfalse
    unfold charly_truthyness at hfalse
    by_cases h1 : v = kNaN
    · exact Or.inr (Or.inr (Or.inr (Or.inr (Or.inr (Or.inl h1)))))
    rw [if_neg (by simp [h1])] at hfalse
    by_cases h2 : v = kNull
    · exact Or.inr (Or.inl h2)
    rw [if_neg (by simp [h2])] at hfalse
    by_cases h3 : v = kFalse
    · exact Or.inl h3
    rw [if_neg (by simp [h3])] at hfalse
    cases h4 : charly_is_int v with
    | true =>
      rw [if_pos h4] at hfalse
      have hzero : charly_int_to_int64 v = 0 := by simpa using hfalse
      refine Or.inr (Or.inr (Or.inl ?_))
      have hsig : v / 2 ^ 48 = 0x7ffc := by
        simpa [charly_is_int, signatureOf] using h4
      rw [int_to_int64_eq] at hzero
      have hlt : v % 2 ^ 48 < 2 ^ 48 := Nat.mod_lt _ (by norm_num)
      unfold kSignatureInteger
      split at hzero <;> omega
    | false =>
      rw [if_neg (by simp [h4])] at hfalse
      cases h5 : charly_is_float v with
      | true =>
        rw [if_pos h5] at hfalse
        have hz : v % 2 ^ 63 = 0 := by
          simpa [doubleBitsEqZero, charly_double_to_double] using hfalse
        have hvz : v = 0 ∨ v = 2 ^ 63 := by omega
        rcases hvz with h | h
        · exact Or.inr (Or.inr (Or.inr (Or.inl h)))
        · exact Or.inr (Or.inr (Or.inr (Or.inr (Or.inl h))))
      | false =>
        rw [if_neg (by simp [h5])] at hfalse
        cases h6 : charly_is_generator h v with
        | true =>
          rw [if_pos h6] at hfalse
          have hfin : generator_finished h v = true := by simpa using hfalse
          exact Or.inr (Or.inr (Or.inr (Or.inr (Or.inr (Or.inr ⟨rfl, hfin⟩)))))
        | false =>
          rw [if_neg (by simp [h6])] at hfalse
          cases hfalse
  · intro hcases
    rcases hcases with h | h | h | h | h | h | ⟨hgen, hfin⟩
    · subst h; rfl
    · subst h; rfl
    · subst h; rfl
    · subst h; rfl
    · subst h; rfl
    · subst h; rfl
    · -- a pointer-tagged value fails all earlier tests
      have hptr : charly_is_ptr v = true := by
        unfold charly_is_generator charly_is_heap_type at hgen
        exact (Bool.and_eq_true _ _ |>.mp hgen).1
      have hsig : v / 2 ^ 48 = 0xfff8 := by
        simpa [charly_is_ptr, signatureOf] using hptr
      have h1 : v ≠ kNaN := by unfold kNaN kBitsNaN; omega
      have h2 : v ≠ kNull := by unfold kNull; omega
      have h3 : v ≠ kFalse := by unfold kFalse; omega
      have h4 : charly_is_int v = false := by
        simp only [charly_is_int, signatureOf, beq_eq_false_iff_ne, ne_eq]
        omega
      have h5 : charly_is_float v = false := by
        simp only [charly_is_float, charly_is_nan, Bool.or_eq_false_iff,
          beq_eq_false_iff_ne, ne_eq, bne_eq_false_iff_eq]
        constructor
        · unfold kNaN kBitsNaN; omega
        · unfold exponentFieldOf
          simp only [bne_eq_false_iff_eq] at *
          omega
      unfold charly_truthyness
      rw [if_neg (by simp [h1]), if_neg (by simp [h2]), if_neg (by simp [h3]),
        if_neg (by simp [h4]), if_neg (by simp [h5]), if_pos hgen, hfin]
      rfl

/-- Witness for `truthyness_spec`: a pointer to a finished generator cell is
falsy. -/
theorem truthyness_spec_witness :
    (kSignaturePointer + 5 < 2 ^ 64 ∧
     (charly_is_ptr (kSignaturePointer + 5) = true →
       charly_as_pointer (kSignaturePointer + 5) ≠ 0)) ∧
    (charly_truthyness
        (fun _ => ⟨true, true, false,
          .generator 0 0 0 0 [] 0 false 0 []⟩)
        (kSignaturePointer + 5) = false ↔
      (kSignaturePointer + 5 = kFalse ∨ kSignaturePointer + 5 = kNull ∨
       kSignaturePointer + 5 = kSignatureInteger ∨
       kSignaturePointer + 5 = 0 ∨ kSignaturePointer + 5 = 2 ^ 63 ∨
       kSignaturePointer + 5 = kNaN ∨
       (charly_is_generator
          (fun _ => ⟨true, true, false,
            .generator 0 0 0 0 [] 0 false 0 []⟩)
          (kSignaturePointer + 5) = true ∧
        generator_finished
          (fun _ => ⟨true, true, false,
            .generator 0 0 0 0 [] 0 false 0 []⟩)
          (kSignaturePointer + 5) = true))) :=
  ⟨⟨by decide, fun _ => by decide⟩,
    truthyness_spec _ _ (by decide) (fun _ => by decide)⟩

/-! ## Immediate strings (`charly_create_istring`, `charly_string_data`,
`charly_string_length`)

The source packs short strings into the value word itself, writing through
`char* buf = (char*)&val`.  We model the little-endian layout (the
`!IS_BIG_ENDIAN()` branches, the deployment target): byte `i` of the word is
`v / 2^(8·i) % 256`, and writing a byte into a position whose bits are zero
adds `b · 2^(8·i)`.  `kSignatureIString` and `kSignaturePString` have zero
low 48 bits, so the byte stores of `charly_create_istring` sum up. -/

/-- Byte `i` (little-endian) of a 64-bit word: `((char*)&value)[i]`. -/
def getByte (v : Nat) (i : Nat) : Nat := v / 2 ^ (8 * i) % 256

/-- The number whose little-endian bytes are `s` (low byte first):
the contents of a byte buffer holding `s`. -/
def bytesVal : List Nat → Nat
  | [] => 0
  | b :: t => b + 256 * bytesVal t

/-- `charly_create_istring(ptr, length)`:
```
if (length == 6) {            // packed string: 6 data bytes
  VALUE val = kSignaturePString;
  buf[0..5] = ptr[0..5];
  return val;
} else if (length <= 5) {     // inline string: data bytes + length byte
  VALUE val = kSignatureIString;
  buf[0..length-1] = ptr[0..length-1];
  buf[5] = length;
  return val;
} else return kNull;
```-/
def charly_create_istring (s : List Nat) : Nat :=
  if s.length = 6 then kSignaturePString + bytesVal s
  else if s.length ≤ 5 then kSignatureIString + bytesVal s + s.length * 2 ^ 40
  else kNull

/-- `charly_string_length(value)`: 6 for packed strings, the explicit length
byte (byte 5, little-endian) for inline strings, the buffer length for heap
strings, `0xffffffff` otherwise. -/
def charly_string_length (h : Heap) (v : Nat) : Nat :=
  if charly_is_pstring v then 6
  else if charly_is_istring v then getByte v 5
  else if charly_is_hstring h v then
    match (h (charly_as_pointer v)).data with
    | .string bytes => bytes.length
    | _ => 0
  else 0xffffffff

/-- Byte `i` of the buffer returned by `charly_string_data(value)`: for heap
strings the heap buffer, otherwise (little-endian) the bytes of the value
word itself (`reinterpret_cast<char*>(&value)`). -/
def charly_string_data_byte (h : Heap) (v : Nat) (i : Nat) : Nat :=
  if charly_is_hstring h v then
    match (h (charly_as_pointer v)).data with
    | .string bytes => bytes.getD i 0
    | _ => 0
  else getByte v i

/-- A byte buffer with `n` in-range bytes is below `256^n`. -/
lemma bytesVal_lt (s : List Nat) (hb : ∀ b ∈ s, b < 256) :
    bytesVal s < 256 ^ s.length := by
  induction s with
  | nil => simp [bytesVal]
  | cons b t ih =>
    have hb0 : b < 256 := hb b (by simp)
    have ht := ih (fun x hx => hb x (by simp [hx]))
    simp only [bytesVal, List.length_cons, pow_succ]
    calc b + 256 * bytesVal t < 256 + 256 * bytesVal t := by omega
    _ ≤ 256 * (bytesVal t + 1) := by ring_nf; omega
    _ ≤ 256 * 256 ^ t.length := by
        have : bytesVal t + 1 ≤ 256 ^ t.length := ht
        exact Nat.mul_le_mul_left _ this
    _ = 256 ^ t.length * 256 := by ring

/-- Reading byte `i` of a packed buffer returns the `i`-th stored byte. -/
lemma getByte_bytesVal (s : List Nat) (hb : ∀ b ∈ s, b < 256) (i : Nat)
    (hi : i < s.length) : getByte (bytesVal s) i = s[i] := by
  induction s generalizing i with
  | nil => simp at hi
  | cons b t ih =>
    have hb0 : b < 256 := hb b (by simp)
    cases i with
    | zero =>
      simp only [getByte, bytesVal, Nat.mul_zero, pow_zero, Nat.div_one,
        List.getElem_cons_zero]
      omega
    | succ i =>
      have hi' : i < t.length := by simpa using hi
      have hstep : getByte (bytesVal (b :: t)) (i + 1) = getByte (bytesVal t) i := by
        simp only [getByte, bytesVal]
        have hpow : 2 ^ (8 * (i + 1)) = 256 * 2 ^ (8 * i) := by
          rw [Nat.mul_add, pow_add]
          ring
        rw [hpow, ← Nat.div_div_eq_div_mul]
        congr 2
        rw [Nat.add_mul_div_left _ _ (by norm_num : (0:Nat) < 256)]
        omega
      rw [hstep, ih (fun x hx => hb x (by simp [hx])) i hi']
      simp

/-- Adding a multiple of `2^m` does not change bytes strictly below byte
`m / 8`. -/
lemma getByte_add_mul_pow (x K i m : Nat) (h : 8 * i + 8 ≤ m) :
    getByte (x + K * 2 ^ m) i = getByte x i := by
  unfold getByte
  have hm : 2 ^ m = 2 ^ (8 * i) * 2 ^ (m - 8 * i) := by
    rw [← pow_add]
    congr 1
    omega
  have hK : K * 2 ^ m = K * 2 ^ (m - 8 * i) * 2 ^ (8 * i) := by
    rw [hm]; ring
  rw [hK, Nat.add_mul_div_right _ _ (Nat.pos_pow_of_pos _ (by norm_num))]
  have hsplit : 2 ^ (m - 8 * i) = 256 * 2 ^ (m - 8 * i - 8) := by
    have : m - 8 * i = 8 + (m - 8 * i - 8) := by omega
    rw [this, pow_add]
    norm_num
  rw [hsplit]
  have : K * (256 * 2 ^ (m - 8 * i - 8)) = K * 2 ^ (m - 8 * i - 8) * 256 := by ring
  rw [this, Nat.add_mul_mod_self_right]

/-- C8: for every byte sequence `s` with `|s| ≤ 6`, `charly_create_istring`
produces an immediate-encoded value whose `charly_string_data` buffer starts
with the bytes of `s` and whose `charly_string_length` is `|s|`; length 6
uses the packed-string form, lengths 0–5 the inline form with an explicit
length byte. -/
theorem istring_roundtrip (h : Heap) (s : List Nat) (hlen : s.length ≤ 6)
    (hbytes : ∀ b ∈ s, b < 256) :
    charly_string_length h (charly_create_istring s) = s.length ∧
    (List.range s.length).map (charly_string_data_byte h (charly_create_istring s))
      = s ∧
    (s.length = 6 → charly_is_pstring (charly_create_istring s) = true) ∧
    (s.length ≤ 5 → charly_is_istring (charly_create_istring s) = true) := by
  have hBlt := bytesVal_lt s hbytes
  by_cases h6 : s.length = 6
  · -- packed-string form
    have hv : charly_create_istring s = bytesVal s + 0x7ffe * 2 ^ 48 := by
      unfold charly_create_istring kSignaturePString
      rw [if_pos h6]
      ring
    have hB48 : bytesVal s < 2 ^ 48 := by
      have : (256 : Nat) ^ s.length = 2 ^ 48 := by rw [h6]; norm_num
      omega
    have hsig : charly_create_istring s / 2 ^ 48 = 0x7ffe := by
      rw [hv]; omega
    have hps : charly_is_pstring (charly_create_istring s) = true := by
      simp only [charly_is_pstring, signatureOf, beq_iff_eq]
      omega
    have hnp : charly_is_ptr (charly_create_istring s) = false := by
      simp only [charly_is_ptr, signatureOf, beq_eq_false_iff_ne, ne_eq]
      omega
    have hnh : charly_is_hstring h (charly_create_istring s) = false := by
      simp [charly_is_hstring, charly_is_heap_type, hnp]
    refine ⟨?_, ?_, fun _ => hps, fun h5 => by omega⟩
    · unfold charly_string_length
      rw [if_pos hps, h6]
    · apply List.ext_getElem
      · simp
      · intro i hi1 hi2
        have hi : i < s.length := by simpa using hi2
        simp only [List.getElem_map, List.getElem_range]
        unfold charly_string_data_byte
        rw [hnh]
        simp only [Bool.false_eq_true, if_false]
        rw [hv, getByte_add_mul_pow _ _ _ _ (by omega),
          getByte_bytesVal s hbytes i hi]
  · have h5 : s.length ≤ 5 := by omega
    have hv : charly_create_istring s =
        bytesVal s + (s.length + 0x7fff00) * 2 ^ 40 := by
      unfold charly_create_istring kSignatureIString
      rw [if_neg h6, if_pos h5]
      ring
    have hB40 : bytesVal s < 2 ^ 40 := by
      have h1 : (256 : Nat) ^ s.length ≤ 256 ^ 5 :=
        Nat.pow_le_pow_right (by norm_num) h5
      have h2 : (256 : Nat) ^ 5 = 2 ^ 40 := by norm_num
      omega
    have hsig : charly_create_istring s / 2 ^ 48 = 0x7fff := by
      rw [hv]; omega
    have his : charly_is_istring (charly_create_istring s) = true := by
      simp only [charly_is_istring, signatureOf, beq_iff_eq]
      omega
    have hnps : charly_is_pstring (charly_create_istring s) = false := by
      simp only [charly_is_pstring, signatureOf, beq_eq_false_iff_ne, ne_eq]
      omega
    have hnp : charly_is_ptr (charly_create_istring s) = false := by
      simp only [charly_is_ptr, signatureOf, beq_eq_false_iff_ne, ne_eq]
      omega
    have hnh : charly_is_hstring h (charly_create_istring s) = false := by
      simp [charly_is_hstring, charly_is_heap_type, hnp]
    refine ⟨?_, ?_, fun hc => by omega, fun _ => his⟩
    · unfold charly_string_length
      rw [hnps]
      simp only [Bool.false_eq_true, if_false]
      rw [if_pos his]
      show charly_create_istring s / 2 ^ (8 * 5) % 256 = s.length
      rw [hv]
      have hl5 : s.length ≤ 5 := h5
      omega
    · apply List.ext_getElem
      · simp
      · intro i hi1 hi2
        have hi : i < s.length := by simpa using hi2
        simp only [List.getElem_map, List.getElem_range]
        unfold charly_string_data_byte
        rw [hnh]
        simp only [Bool.false_eq_true, if_false]
        rw [hv, getByte_add_mul_pow _ _ _ _ (by omega),
          getByte_bytesVal s hbytes i hi]

/-- Witness for `istring_roundtrip` on the three-byte string `"abc"`
(bytes `[97, 98, 99]`). -/
theorem istring_roundtrip_witness :
    ([97, 98, 99] : List Nat).length ≤ 6 ∧
    (charly_string_length (fun _ => ⟨false, false, false, .dead 0⟩)
        (charly_create_istring [97, 98, 99]) = 3 ∧
     (List.range 3).map
        (charly_string_data_byte (fun _ => ⟨false, false, false, .dead 0⟩)
          (charly_create_istring [97, 98, 99])) = [97, 98, 99] ∧
     (([97, 98, 99] : List Nat).length = 6 →
        charly_is_pstring (charly_create_istring [97, 98, 99]) = true) ∧
     (([97, 98, 99] : List Nat).length ≤ 5 →
        charly_is_istring (charly_create_istring [97, 98, 99]) = true)) :=
  ⟨by decide,
    istring_roundtrip (fun _ => ⟨false, false, false, .dead 0⟩) [97, 98, 99]
      (by decide) (by decide)⟩

/-! ## Class prototype lookup (`charly_find_prototype_value`,
`charly_find_super_method`) -/

/-- Lookup in an `std::unordered_map<VALUE, VALUE>` container, modelled as an
association list (`container->count(symbol)` + `(*container)[symbol]`). -/
def assocLookup : List (Nat × Nat) → Nat → Option Nat
  | [], _ => none
  | (k, v) :: t, sym => if k = sym then some v else assocLookup t sym

/-- The `prototype` field of a class cell (`kNull` when the cell is not a
class). -/
def classProtoOf (h : Heap) (c : Nat) : Nat :=
  match (h c).data with
  | .klass _ _ _ proto _ _ => proto
  | _ => kNull

/-- The `parent_class` field of a class cell. -/
def classParentOf (h : Heap) (c : Nat) : Nat :=
  match (h c).data with
  | .klass _ _ _ _ parent _ => parent
  | _ => kNull

/-- The cell at address `c` is a class cell. -/
def isClassCell (h : Heap) (c : Nat) : Bool := cellTypeOf (h c).data == 1

/-- `charly_find_prototype_value(Class* klass, VALUE symbol)`:
```
std::optional<VALUE> result;
if (charly_is_object(klass->prototype)) {
  Object* prototype = charly_as_object(klass->prototype);
  if (prototype->container->count(symbol)) {
    result = (*prototype->container)[symbol];
  } else if (charly_is_class(klass->parent_class)) {
    auto presult = charly_find_prototype_value(pklass, symbol);
    if (presult.has_value()) return presult;
  }
}
return result;
```
(the fall-through `return result` after a valueless parent lookup also
returns `nullopt`, so the recursion can be returned directly).  The C++
recursion has no termination guard — a cyclic `parent_class` chain diverges
("no cycles allowed" is the builder's responsibility) — so the model takes
fuel; the theorems supply fuel at least the chain length, on which the fuel
branch is never reached. -/
def charly_find_prototype_value (h : Heap) : Nat → Nat → Nat → Option Nat
  | 0, _, _ => none
  | fuel + 1, klassAddr, symbol =>
    match (h klassAddr).data with
    | .klass _ _ _ proto parent _ =>
      if charly_is_object h proto then
        match (h (charly_as_pointer proto)).data with
        | .object _ container =>
          match assocLookup container symbol with
          | some v => some v
          | none =>
            if charly_is_class h parent then
              charly_find_prototype_value h fuel (charly_as_pointer parent) symbol
            else none
        | _ => none
      else none
    | _ => none

/-- `charly_find_super_method(Class* base, VALUE symbol)`:
```
if (!charly_is_class(base->parent_class)) return kNull;
Class* parent_class = charly_as_class(base->parent_class);
return charly_find_prototype_value(parent_class, symbol).value_or(kNull);
```-/
def charly_find_super_method (h : Heap) (fuel : Nat) (baseAddr : Nat)
    (symbol : Nat) : Nat :=
  match (h baseAddr).data with
  | .klass _ _ _ _ parent _ =>
    if charly_is_class h parent then
      (charly_find_prototype_value h fuel (charly_as_pointer parent)
        symbol).getD kNull
    else kNull
  | _ => kNull

/-- The ancestor chain of a class: `ClassChain h c l` says `l` is the list
of class-cell addresses starting at `c` and following `parent_class` links
while they refer to class cells (so chains are finite, i.e. acyclic). -/
inductive ClassChain (h : Heap) : Nat → List Nat → Prop where
  | last (c : Nat) : isClassCell h c = true →
      charly_is_class h (classParentOf h c) = false →
      ClassChain h c [c]
  | cons (c : Nat) (l : List Nat) : isClassCell h c = true →
      charly_is_class h (classParentOf h c) = true →
      ClassChain h (charly_as_pointer (classParentOf h c)) l →
      ClassChain h c (c :: l)

/-- Lookup of `sym` in the prototype container of the single class `c`. -/
def protoContainerLookup (h : Heap) (c sym : Nat) : Option Nat :=
  match (h c).data with
  | .klass _ _ _ proto _ _ =>
    match (h (charly_as_pointer proto)).data with
    | .object _ container => assocLookup container sym
    | _ => none
  | _ => none

/-- The claim's specification of method lookup: scan the ancestor chain in
order, search each class's own prototype container, and return the first
match. -/
def chainLookup (h : Heap) : List Nat → Nat → Option Nat
  | [], _ => none
  | c :: rest, sym =>
    match protoContainerLookup h c sym with
    | some v => some v
    | none => chainLookup h rest sym

/-- A class cell destructs to a `klass` payload. -/
lemma classCell_destruct (h : Heap) (c : Nat) (hc : isClassCell h c = true) :
    ∃ n k mp proto parent cont,
      (h c).data = CellData.klass n k mp proto parent cont := by
  rcases hd : (h c).data with _ | ⟨n, k, mp, proto, parent, cont⟩ | _ | _ | _
    | _ | _ | _ | _ | _ | _ <;>
    simp only [isClassCell, hd, cellTypeOf, beq_iff_eq] at hc <;>
    first
      | omega
      | exact ⟨n, k, mp, proto, parent, cont, rfl⟩

/-- An object value destructs to an `object` payload at its address. -/
lemma objectCell_destruct (h : Heap) (v : Nat)
    (hv : charly_is_object h v = true) :
    ∃ k cont, (h (charly_as_pointer v)).data = CellData.object k cont := by
  unfold charly_is_object charly_is_heap_type at hv
  have htype := (Bool.and_eq_true _ _ |>.mp hv).2
  rcases hd : (h (charly_as_pointer v)).data with _ | _ | ⟨k, cont⟩ | _ | _
    | _ | _ | _ | _ | _ | _ <;>
    rw [hd] at htype <;>
    simp only [cellTypeOf, beq_iff_eq] at htype <;>
    first
      | omega
      | exact ⟨k, cont, rfl⟩

/-- Case analysis on a class chain. -/
lemma ClassChain_cases {h : Heap} {c : Nat} {l : List Nat}
    (hch : ClassChain h c l) :
    isClassCell h c = true ∧
    ((charly_is_class h (classParentOf h c) = false ∧ l = [c]) ∨
     (charly_is_class h (classParentOf h c) = true ∧
      ∃ t, l = c :: t ∧
        ClassChain h (charly_as_pointer (classParentOf h c)) t)) := by
  cases hch with
  | last c h1 h2 => exact ⟨h1, Or.inl ⟨h2, rfl⟩⟩
  | cons c t h1 h2 h3 => exact ⟨h1, Or.inr ⟨h2, t, rfl, h3⟩⟩

/-- Helper: the recursion of `charly_find_prototype_value` computes the
chain scan, given fuel at least the chain length and object prototypes. -/
lemma find_prototype_eq_chainLookup (h : Heap) (c : Nat) (l : List Nat)
    (sym : Nat) (hchain : ClassChain h c l)
    (hproto : ∀ a ∈ l, charly_is_object h (classProtoOf h a) = true) :
    ∀ fuel, l.length ≤ fuel →
      charly_find_prototype_value h fuel c sym = chainLookup h l sym := by
  induction hchain with
  | last c hcl hpar =>
    intro fuel hfuel
    cases fuel with
    | zero => simp at hfuel
    | succ fuel =>
      have hobj := hproto c (by simp)
      obtain ⟨n, k, mp, proto, parent, cont, hd⟩ := classCell_destruct h c hcl
      simp only [classProtoOf, hd] at hobj
      simp only [classParentOf, hd] at hpar
      obtain ⟨k2, cont2, hpd⟩ := objectCell_destruct h proto hobj
      unfold charly_find_prototype_value
      simp only [hd]
      rw [if_pos hobj]
      simp only [hpd]
      simp only [chainLookup, protoContainerLookup, hd, hpd]
      cases hlook : assocLookup cont2 sym with
      | some v => simp
      | none =>
        rw [if_neg (by simp [hpar])]
  | cons c l hcl hpar hrec ih =>
    intro fuel hfuel
    cases fuel with
    | zero => simp at hfuel
    | succ fuel =>
      have hobj := hproto c (by simp)
      obtain ⟨n, k, mp, proto, parent, cont, hd⟩ := classCell_destruct h c hcl
      simp only [classProtoOf, hd] at hobj
      simp only [classParentOf, hd] at hpar hrec ih
      obtain ⟨k2, cont2, hpd⟩ := objectCell_destruct h proto hobj
      unfold charly_find_prototype_value
      simp only [hd]
      rw [if_pos hobj]
      simp only [hpd]
      simp only [chainLookup, protoContainerLookup, hd, hpd]
      cases hlook : assocLookup cont2 sym with
      | some v => simp
      | none =>
        rw [if_pos hpar]
        have hlen : l.length ≤ fuel := by
          simp only [List.length_cons] at hfuel
          omega
        exact ih (fun a ha => hproto a (by simp [ha])) fuel hlen

/-- C9: prototype method lookup on a class searches the class's own
prototype container first and, only when the symbol is absent there,
continues transitively through the `parent_class` prototypes, returning the
first match (`chainLookup` is that specification, stated over the ancestor
chain); super-method lookup performs the same search starting at the parent
class, skipping the class's own prototype (the chain's tail), and returns
`kNull` when nothing is found or there is no parent class. -/
theorem prototype_lookup_spec (h : Heap) (c : Nat) (l : List Nat)
    (sym fuel : Nat) (hchain : ClassChain h c l)
    (hproto : ∀ a ∈ l, charly_is_object h (classProtoOf h a) = true)
    (hfuel : l.length ≤ fuel) :
    charly_find_prototype_value h fuel c sym = chainLookup h l sym ∧
    charly_find_super_method h fuel c sym =
      (chainLookup h l.tail sym).getD kNull := by
  refine ⟨find_prototype_eq_chainLookup h c l sym hchain hproto fuel hfuel, ?_⟩
  obtain ⟨hcl, hrest⟩ := ClassChain_cases hchain
  obtain ⟨n, k, mp, proto, parent, cont, hd⟩ := classCell_destruct h c hcl
  unfold charly_find_super_method
  simp only [hd]
  rcases hrest with ⟨hpar, hl⟩ | ⟨hpar, t, hl, hchild⟩
  · simp only [classParentOf, hd] at hpar
    rw [if_neg (by simp [hpar])]
    subst hl
    simp [chainLookup]
  · simp only [classParentOf, hd] at hpar hchild
    rw [if_pos hpar]
    subst hl
    simp only [List.tail_cons]
    have := find_prototype_eq_chainLookup h (charly_as_pointer parent) t sym
      hchild (fun a ha => hproto a (by simp [ha])) fuel
      (by simp only [List.length_cons] at hfuel; omega)
    rw [this]

/-- A concrete two-class heap: class at 1 (prototype object at 2, parent
class at 3), class at 3 (prototype object at 4 containing symbol 77, no
parent). -/
def chainWitnessHeap : Heap := fun a =>
  if a = 1 then
    ⟨false, false, false,
      .klass 0 kNull [] (kSignaturePointer + 2) (kSignaturePointer + 3) []⟩
  else if a = 2 then ⟨false, false, false, .object kNull []⟩
  else if a = 3 then
    ⟨false, false, false, .klass 0 kNull [] (kSignaturePointer + 4) kNull []⟩
  else if a = 4 then ⟨false, false, false, .object kNull [(77, 123)]⟩
  else ⟨false, false, false, .dead 0⟩

/-- Witness for `prototype_lookup_spec`: a two-class chain; the child (cell
1, prototype object at 2) lacks the symbol, the parent (cell 3, prototype
object at 4) has it; lookup finds the parent's method and super-lookup from
the child finds it too. -/
theorem prototype_lookup_spec_witness :
    (ClassChain chainWitnessHeap 1 [1, 3] ∧
     (∀ a ∈ [1, 3],
        charly_is_object chainWitnessHeap (classProtoOf chainWitnessHeap a)
          = true) ∧
     ([1, 3] : List Nat).length ≤ 2) ∧
    (charly_find_prototype_value chainWitnessHeap 2 1 77 =
        chainLookup chainWitnessHeap [1, 3] 77 ∧
     charly_find_super_method chainWitnessHeap 2 1 77 =
        (chainLookup chainWitnessHeap ([1, 3] : List Nat).tail 77).getD kNull) := by
  refine ⟨⟨?_, by decide, by decide⟩, ?_⟩
  · refine ClassChain.cons 1 [3] (by decide) (by decide) ?_
    · show ClassChain chainWitnessHeap
        (charly_as_pointer (classParentOf chainWitnessHeap 1)) [3]
      have : charly_as_pointer (classParentOf chainWitnessHeap 1) = 3 := by decide
      rw [this]
      exact ClassChain.last 3 (by decide) (by decide)
  · refine prototype_lookup_spec chainWitnessHeap 1 [1, 3] 77 2 ?_ (by decide)
      (by decide)
    refine ClassChain.cons 1 [3] (by decide) (by decide) ?_
    have : charly_as_pointer (classParentOf chainWitnessHeap 1) = 3 := by decide
    rw [this]
    exact ClassChain.last 3 (by decide) (by decide)

/-! ## Host function calls (`charly_call_cfunction`) -/

/-- Declared argument count of a `CFunction` cell. -/
def cfunctionArgcOf (h : Heap) (a : Nat) : Nat :=
  match (h a).data with
  | .cfunction _ _ n _ _ _ => n
  | _ => 0

/-- `charly_call_cfunction(VM* vm_handle, CFunction* cfunc, uint32_t argc, VALUE* argv)`:
```
if (argc < cfunc->argc) return kNull;
switch (cfunc->argc) {
  case 0: ... case 20: return cfunc->pointer(*vm_handle, argv[0..argc-1]);
}
return kNull;    // argc > 20 falls through the switch
```
The native pointer is modelled by an environment `native` mapping the code
address to a function of the passed argument list; the second component of
the result records the invocation: `some args` when the pointer was called
with `args`, `none` when it was not called at all. -/
def charly_call_cfunction (native : Nat → List Nat → Nat) (h : Heap)
    (cfuncAddr : Nat) (argc : Nat) (argv : List Nat) :
    Nat × Option (List Nat) :=
  match (h cfuncAddr).data with
  | .cfunction _ pointer cargc _ _ _ =>
    if argc < cargc then (kNull, none)
    else if cargc ≤ 20 then
      (native pointer (argv.take cargc), some (argv.take cargc))
    else (kNull, none)
  | _ => (kNull, none)

/-- C10: `charly_call_cfunction` returns null without invoking the native
pointer whenever the supplied `argc` is smaller than the declared `argc`,
and likewise when the declared `argc` exceeds 20 (the switch falls
through); whenever the native pointer is invoked, it receives exactly the
declared number of arguments. -/
theorem call_cfunction_spec (native : Nat → List Nat → Nat) (h : Heap)
    (a argc : Nat) (argv : List Nat) (hlen : argv.length = argc) :
    (argc < cfunctionArgcOf h a →
      charly_call_cfunction native h a argc argv = (kNull, none)) ∧
    (20 < cfunctionArgcOf h a →
      charly_call_cfunction native h a argc argv = (kNull, none)) ∧
    (∀ args, (charly_call_cfunction native h a argc argv).2 = some args →
      args.length = cfunctionArgcOf h a) := by
  unfold charly_call_cfunction cfunctionArgcOf
  rcases hd : (h a).data with _ | _ | _ | _ | _ | _
    | ⟨n, pointer, cargc, cont, policy, pr⟩ | _ | _ | _ | _ <;> dsimp only
  all_goals
    try exact ⟨fun _ => rfl, fun _ => rfl, fun args hargs => by cases hargs⟩
  refine ⟨?_, ?_, ?_⟩
  · intro hlt
    rw [if_pos hlt]
  · intro hgt
    by_cases hlt : argc < cargc
    · rw [if_pos hlt]
    · rw [if_neg hlt, if_neg (by omega)]
  · intro args hargs
    by_cases hlt : argc < cargc
    · rw [if_pos hlt] at hargs
      cases hargs
    · by_cases h20 : cargc ≤ 20
      · rw [if_neg hlt, if_pos h20] at hargs
        simp only [Option.some.injEq] at hargs
        subst hargs
        rw [List.length_take]
        omega
      · rw [if_neg hlt, if_neg h20] at hargs
        cases hargs

/-- Witness for `call_cfunction_spec`: a cfunction cell declaring 3
arguments, called with 2 — the pointer is not invoked (`none`) and `kNull`
is returned. -/
theorem call_cfunction_spec_witness :
    ([10, 20] : List Nat).length = 2 ∧
    (2 < cfunctionArgcOf (fun _ => ⟨false, false, false,
        .cfunction 0 99 3 [] 1 true⟩) 5 →
      charly_call_cfunction (fun _ _ => 0)
        (fun _ => ⟨false, false, false, .cfunction 0 99 3 [] 1 true⟩)
        5 2 [10, 20] = (kNull, none)) ∧
    charly_call_cfunction (fun _ _ => 0)
      (fun _ => ⟨false, false, false, .cfunction 0 99 3 [] 1 true⟩)
      5 2 [10, 20] = (kNull, none) :=
  ⟨by decide,
   (call_cfunction_spec (fun _ _ => 0) _ 5 2 [10, 20] (by decide)).1,
   (call_cfunction_spec (fun _ _ => 0) _ 5 2 [10, 20] (by decide)).1
     (by decide)⟩

/-! ## Garbage collector (`src/vm/gc.cpp`)

State of `GarbageCollector`: the arenas (`std::vector<MemoryCell*> heaps`,
each a contiguous array of `heap_cell_count` cells), the freelist head
`free_cell` (a `MemoryCell*`, `0` for `nullptr`), `remaining_free_cells`,
and the configuration.  Cell contents live in the shared `Heap` memory map;
an arena is represented by the list of its cells' addresses.  The recursive
mutex serialises the collector; the model is the single-threaded semantics
under the lock. -/

/-- `charly_create_pointer(ptr)`:
```
if (ptr == nullptr) return kNull;
if (ptr > kMaxPointer) return kSignaturePointer;
return kSignaturePointer | (kMaskPointer & ptr);
```-/
def charly_create_pointer (p : Nat) : Nat :=
  if p = 0 then kNull
  else if 2 ^ 48 - 1 < p then kSignaturePointer
  else kSignaturePointer + p

/-- The values `GarbageCollector::mark` recurses into for each cell kind, in
source order (`switch (charly_as_basic(value)->type)`): objects walk class
and container values; arrays their elements; functions context, host class,
bound self (when set) and container; cfunctions their container; generators
their saved state only while not finished (the `f1` flag), then the
container; classes constructor, prototype, parent and container; frames
parent, lexical parent, catchtable, caller, self and every local;
catchtables frame and parent; strings, cpointers and dead cells nothing. -/
def cellChildren (c : Cell) : List Nat :=
  match c.data with
  | .dead _ => []
  | .klass _ k _ proto parent cont =>
      k :: proto :: parent :: cont.map Prod.snd
  | .object k cont => k :: cont.map Prod.snd
  | .array ds => ds
  | .string _ => []
  | .function _ _ _ _ ctx _ bset bself hostk cont =>
      charly_create_pointer ctx :: hostk ::
        ((if bset then [bself] else []) ++ cont.map Prod.snd)
  | .cfunction _ _ _ cont _ _ => cont.map Prod.snd
  | .generator _ cf bf cc stack _ bset bself cont =>
      (if c.f1 then [] else
        [charly_create_pointer cf, charly_create_pointer bf,
         charly_create_pointer cc] ++
          (if bset then [bself] else []) ++ stack) ++ cont.map Prod.snd
  | .frame p pe lc cv sv locals _ _ =>
      [charly_create_pointer p, charly_create_pointer pe,
       charly_create_pointer lc, cv, sv] ++ locals
  | .catchtable _ _ fr par =>
      [charly_create_pointer fr, charly_create_pointer par]
  | .cpointer _ _ => []

/-- Set the mark bit of the cell at `a` (`charly_as_basic(value)->mark = true`). -/
def setMark (h : Heap) (a : Nat) : Heap :=
  fun x => if x = a then { h x with mark := true } else h x

/-- `GarbageCollector::mark(VALUE value)`:
```
if (!charly_is_ptr(value)) return;
if (charly_as_pointer(value) == nullptr) return;
if (charly_as_basic(value)->mark) return;
charly_as_basic(value)->mark = true;
switch (type) { … this->mark(<each referenced value>); … }
```
The C++ recursion carries no explicit bound; it terminates because each
nested call sets a previously clear mark bit before recursing, so the
recursion depth never exceeds the number of unmarked cells.  The model makes
that bound explicit as fuel; `gcMark_marks_eq` proves that any fuel larger
than the number of unmarked cells computes the same (fuel-independent)
result, which is what `gcCollect` passes. -/
def gcMark : Nat → Heap → Nat → Heap
  | 0, h, _ => h
  | fuel + 1, h, v =>
    if charly_is_ptr v then
      if charly_as_pointer v = 0 then h
      else if (h (charly_as_pointer v)).mark then h
      else
        (cellChildren (h (charly_as_pointer v))).foldl (gcMark fuel)
          (setMark h (charly_as_pointer v))
    else h

/-- Collector configuration (`heap_initial_count`/`heap_cell_count`,
`min_free_cells`, `heap_growth_factor`). -/
structure GCConfig where
  heap_cell_count : Nat
  min_free_cells : Nat
  heap_growth_factor : Nat
  deriving DecidableEq

/-- Collector state. -/
structure GCState where
  cells : Heap
  heaps : List (List Nat)
  free_cell : Nat
  remaining_free_cells : Nat
  config : GCConfig

/-- All arena cell addresses, in sweep order
(`for (MemoryCell* heap : heaps) for (i = 0; i < heap_cell_count; i++)`). -/
def arenaAddrs (g : GCState) : List Nat := g.heaps.flatten

/-- The union read `cell->free.next`: meaningful for Dead (freelist) cells;
on any other payload the C++ read would return reinterpreted garbage, which
the model renders as `0`. -/
def readFreeNext (c : Cell) : Nat :=
  match c.data with
  | .dead n => n
  | _ => 0

/-- `GarbageCollector::deallocate(MemoryCell* cell)` minus the destructor
dispatch: the type-specific `clean()` calls free external C++ containers
(maps, vectors, heap string buffers, CPointer destructors), which have no
residue in the model; then
```
memset(cell, 0, sizeof(MemoryCell));
cell->free.basic.type = kTypeDead;
cell->free.next = this->free_cell;
this->free_cell = cell;
this->remaining_free_cells++;
```-/
def gcDeallocate (g : GCState) (a : Nat) : GCState :=
  { g with
    cells := fun x =>
      if x = a then ⟨false, false, false, .dead g.free_cell⟩ else g.cells x,
    free_cell := a,
    remaining_free_cells := g.remaining_free_cells + 1 }

/-- `charly_is_dead` on a cell payload: the `type` tag is `kTypeDead`. -/
def isDeadData : CellData → Bool
  | .dead _ => true
  | _ => false

/-- One sweep iteration over the cell at `a`:
```
if (mark) { mark = false; }
else if (!charly_is_dead(cell)) { freed_cells_count++; deallocate(cell); }
```
The second component accumulates the deallocated addresses (the model of
`freed_cells_count` and of "the destructor ran"). -/
def sweepStep (acc : GCState × List Nat) (a : Nat) : GCState × List Nat :=
  let g := acc.1
  if (g.cells a).mark then
    ({ g with cells := fun x =>
        if x = a then { g.cells x with mark := false } else g.cells x },
      acc.2)
  else if isDeadData (g.cells a).data then acc
  else (gcDeallocate g a, acc.2 ++ [a])

/-- The sweep phase: a linear scan of all cells of all arenas. -/
def gcSweep (g : GCState) : GCState × List Nat :=
  (arenaAddrs g).foldl sweepStep (g, [])

/-- `GarbageCollector::collect()`: mark every root value, then sweep.  The
root set (frames, catchstack, globals, primitive classes, operand stack,
pop queue, task queue, timers, tickers, paused threads, worker threads,
pinned temporaries) is passed in as the list of values `collect` calls
`mark` on.  The fuel `|arena cells| + 1` strictly exceeds the number of
unmarked cells, so the mark-bit gate is always reached before the fuel. -/
def gcCollect (roots : List Nat) (g : GCState) : GCState × List Nat :=
  let marked := roots.foldl (gcMark ((arenaAddrs g).length + 1)) g.cells
  gcSweep { g with cells := marked }

/-! ### Mark-phase correctness -/

/-- `h'` differs from `h` only by having possibly more mark bits set:
contents (payload and user flags) agree everywhere and marks only grow.
Every state produced during the mark phase evolves from its input. -/
def MarkEvolve (h h' : Heap) : Prop :=
  ∀ x, (h' x).data = (h x).data ∧ (h' x).f1 = (h x).f1 ∧
    (h' x).f2 = (h x).f2 ∧ ((h x).mark = true → (h' x).mark = true)

lemma markEvolve_refl (h : Heap) : MarkEvolve h h := fun _ => ⟨rfl, rfl, rfl, id⟩

lemma MarkEvolve.comp {h1 h2 h3 : Heap} (a : MarkEvolve h1 h2)
    (b : MarkEvolve h2 h3) : MarkEvolve h1 h3 := by
  intro x
  obtain ⟨a1, a2, a3, a4⟩ := a x
  obtain ⟨b1, b2, b3, b4⟩ := b x
  exact ⟨b1.trans a1, b2.trans a2, b3.trans a3, fun hm => b4 (a4 hm)⟩

lemma setMark_evolve (h : Heap) (a : Nat) : MarkEvolve h (setMark h a) := by
  intro x
  unfold setMark
  by_cases hx : x = a <;> simp [hx]

/-- `cellChildren` only looks at the payload and the `f1` flag. -/
lemma cellChildren_congr {c c' : Cell} (hdata : c.data = c'.data)
    (hf1 : c.f1 = c'.f1) : cellChildren c = cellChildren c' := by
  cases c; cases c'
  simp only at hdata hf1
  subst hdata; subst hf1
  rfl

lemma gcMark_evolve : ∀ (fuel : Nat) (h : Heap) (v : Nat),
    MarkEvolve h (gcMark fuel h v) := by
  intro fuel
  induction fuel with
  | zero => intro h v; exact markEvolve_refl h
  | succ fuel ih =>
    have foldEv : ∀ (l : List Nat) (h : Heap),
        MarkEvolve h (l.foldl (gcMark fuel) h) := by
      intro l
      induction l with
      | nil => intro h; exact markEvolve_refl h
      | cons w t iht =>
        intro h
        exact (ih h w).comp (iht (gcMark fuel h w))
    intro h v
    unfold gcMark
    split
    · split
      · exact markEvolve_refl h
      · split
        · exact markEvolve_refl h
        · exact (setMark_evolve h _).comp (foldEv _ _)
    · exact markEvolve_refl h


/-! ### Reachability

`EdgeOf h a b`: the cell at `a` holds a (non-null) pointer value whose
address is `b` among the fields `mark` traverses.  `AvoidPath h a b`: a path
from `a` to `b` all of whose cells (endpoints included) are unmarked in `h`
— exactly the paths the mark-bit gate lets the recursion traverse.
With all marks clear this degenerates to plain reachability. -/

def EdgeOf (h : Heap) (a b : Nat) : Prop :=
  b ≠ 0 ∧ ∃ w ∈ cellChildren (h a), charly_is_ptr w = true ∧
    charly_as_pointer w = b

inductive AvoidPath (h : Heap) : Nat → Nat → Prop where
  | refl (a : Nat) : (h a).mark = false → AvoidPath h a a
  | tail (a b c : Nat) : AvoidPath h a b → EdgeOf h b c →
      (h c).mark = false → AvoidPath h a c

/-- Marking from the value `v` can reach the cell `x` through unmarked
cells. -/
def ReachAvoid (h : Heap) (v x : Nat) : Prop :=
  charly_is_ptr v = true ∧ charly_as_pointer v ≠ 0 ∧
    AvoidPath h (charly_as_pointer v) x

/-- The cell `x` is reachable from the value `v` (plain graph
reachability). -/
def ReachesFrom (h : Heap) (v x : Nat) : Prop :=
  charly_is_ptr v = true ∧ charly_as_pointer v ≠ 0 ∧
    Relation.ReflTransGen (EdgeOf h) (charly_as_pointer v) x

/-- The cell `x` is reachable from the root set. -/
def RootReachable (h : Heap) (roots : List Nat) (x : Nat) : Prop :=
  ∃ v ∈ roots, ReachesFrom h v x

lemma avoidPath_start_unmarked {h : Heap} {a x : Nat} (p : AvoidPath h a x) :
    (h a).mark = false := by
  induction p with
  | refl ha => exact ha
  | tail b c p e m ih => exact ih

lemma avoidPath_trans {h : Heap} {a b c : Nat} (p : AvoidPath h a b)
    (q : AvoidPath h b c) : AvoidPath h a c := by
  induction q with
  | refl _ => exact p
  | tail y z q e m ih => exact .tail a y z ih e m

lemma unmark_down {h h' : Heap} (hEv : MarkEvolve h h') {a : Nat}
    (hm : (h' a).mark = false) : (h a).mark = false := by
  cases hq : (h a).mark
  · rfl
  · have := (hEv a).2.2.2 hq
    rw [this] at hm
    cases hm

lemma edge_congr {h h' : Heap} (hEv : MarkEvolve h h') (a b : Nat) :
    EdgeOf h' a b ↔ EdgeOf h a b := by
  have hc : cellChildren (h' a) = cellChildren (h a) :=
    cellChildren_congr (hEv a).1 (hEv a).2.1
  unfold EdgeOf
  rw [hc]

lemma avoidPath_mono {h h' : Heap} (hEv : MarkEvolve h h') {a x : Nat}
    (p : AvoidPath h' a x) : AvoidPath h a x := by
  induction p with
  | refl ha => exact .refl _ (unmark_down hEv ha)
  | tail b c p e m ih =>
    exact .tail _ b c ih ((edge_congr hEv b c).mp e) (unmark_down hEv m)

/-! ### Domain bookkeeping for the fuel bound -/

/-- Number of unmarked cells among the arena addresses. -/
def unmarkedCount (h : Heap) (D : List Nat) : Nat :=
  (D.filter (fun a => !(h a).mark)).length

/-- Every traversable pointer stored in a `D`-cell points into `D`: the
well-formedness of a heap whose values only point at arena cells. -/
def DomClosed (h : Heap) (D : List Nat) : Prop :=
  ∀ a ∈ D, ∀ w ∈ cellChildren (h a), charly_is_ptr w = true →
    charly_as_pointer w ≠ 0 → charly_as_pointer w ∈ D

/-- A root value, when it is a non-null pointer, points into `D`. -/
def TargetOk (D : List Nat) (v : Nat) : Prop :=
  charly_is_ptr v = true → charly_as_pointer v ≠ 0 → charly_as_pointer v ∈ D

lemma domClosed_congr {h h' : Heap} (hEv : MarkEvolve h h') {D : List Nat}
    (hdc : DomClosed h D) : DomClosed h' D := by
  intro a ha w hw
  rw [cellChildren_congr (hEv a).1 (hEv a).2.1] at hw
  exact hdc a ha w hw

lemma filter_length_mono {α : Type} {p q : α → Bool} (l : List α)
    (hpq : ∀ a ∈ l, p a = true → q a = true) :
    (l.filter p).length ≤ (l.filter q).length := by
  induction l with
  | nil => simp
  | cons b t ih =>
    have ht := ih (fun a ha => hpq a (by simp [ha]))
    cases hp : p b
    · cases hq : q b <;> simp [List.filter, hp, hq] <;> omega
    · have hq : q b = true := hpq b (by simp) hp
      simp [List.filter, hp, hq]
      omega

lemma filter_length_lt {α : Type} [DecidableEq α] {p q : α → Bool}
    (l : List α) (hpq : ∀ x ∈ l, p x = true → q x = true) (a : α)
    (ha : a ∈ l) (hpa : p a = false) (hqa : q a = true) :
    (l.filter p).length < (l.filter q).length := by
  induction l with
  | nil => simp at ha
  | cons b t ih =>
    have hmono := filter_length_mono t (fun x hx => hpq x (by simp [hx]))
    by_cases hba : b = a
    · subst hba
      simp [List.filter, hpa, hqa]
      omega
    · have hat : a ∈ t := by
        rcases List.mem_cons.mp ha with h | h
        · exact absurd h.symm hba
        · exact h
      have hlt := ih (fun x hx => hpq x (by simp [hx])) hat
      cases hp : p b
      · cases hq : q b <;> simp [List.filter, hp, hq] <;> omega
      · have hq : q b = true := hpq b (by simp) hp
        simp [List.filter, hp, hq]
        omega

lemma unmarkedCount_le {h h' : Heap} (hEv : MarkEvolve h h') (D : List Nat) :
    unmarkedCount h' D ≤ unmarkedCount h D := by
  apply filter_length_mono
  intro a _ hp
  simp only [Bool.not_eq_true'] at hp ⊢
  exact unmark_down hEv hp

lemma unmarkedCount_setMark_lt {h : Heap} {a : Nat} {D : List Nat}
    (haD : a ∈ D) (hum : (h a).mark = false) :
    unmarkedCount (setMark h a) D < unmarkedCount h D := by
  apply filter_length_lt (a := a)
  · intro x _ hp
    simp only [Bool.not_eq_true'] at hp ⊢
    exact unmark_down (setMark_evolve h a) hp
  · exact haD
  · simp [setMark]
  · simp [hum]

/-! ### The mark phase computes reachability-through-unmarked-cells -/

/-- Absorption: once the marking from `w` is rolled into the state, paths
avoiding the new marks plus `ReachAvoid w` cover exactly the old paths plus
`ReachAvoid w`. -/
lemma avoidPath_transfer {h' h'' : Heap} {w : Nat} (hEv : MarkEvolve h' h'')
    (hchar : ∀ y, (h'' y).mark = true ↔
      ((h' y).mark = true ∨ ReachAvoid h' w y)) {s x : Nat}
    (p : AvoidPath h' s x) :
    AvoidPath h'' s x ∨ ReachAvoid h' w x := by
  induction p with
  | refl ha =>
    cases hm : (h'' s).mark
    · exact Or.inl (.refl s hm)
    · rcases (hchar s).mp hm with hold | hra
      · rw [hold] at ha; cases ha
      · exact Or.inr hra
  | tail b c p e m ih =>
    rcases ih with hp | hr
    · cases hm : (h'' c).mark
      · exact Or.inl (.tail s b c hp ((edge_congr hEv b c).mpr e) hm)
      · rcases (hchar c).mp hm with hold | hra
        · rw [hold] at m; cases m
        · exact Or.inr hra
    · exact Or.inr ⟨hr.1, hr.2.1, .tail _ b c hr.2.2 e m⟩

/-- Decomposition of an unmarked-path from a freshly visited cell `a` into
"it is `a` itself" or "it continues from one of `a`'s children in the state
where `a` is marked" (which is how the recursion proceeds). -/
lemma avoid_decomp (h : Heap) (a : Nat) (hum : (h a).mark = false) (x : Nat) :
    AvoidPath h a x ↔
      (x = a ∨ ∃ w ∈ cellChildren (h a), ReachAvoid (setMark h a) w x) := by
  constructor
  · intro p
    induction p with
    | refl hb => exact Or.inl rfl
    | tail b c p e m ih =>
      by_cases hca : c = a
      · exact Or.inl hca
      · rcases ih with hb | ⟨w, hw, hra⟩
        · subst hb
          obtain ⟨hc0, w, hw, hptr, haddr⟩ := e
          right
          refine ⟨w, hw, hptr, by rw [haddr]; exact hc0, ?_⟩
          rw [haddr]
          exact .refl c (by simp [setMark, hca, m])
        · right
          refine ⟨w, hw, hra.1, hra.2.1, .tail _ b c hra.2.2 ?_ ?_⟩
          · exact (edge_congr (setMark_evolve h a) b c).mpr e
          · simp [setMark, hca, m]
  · intro hx
    rcases hx with rfl | ⟨w, hw, hptr, hne, hpath⟩
    · exact .refl x hum
    · have hwum : (h (charly_as_pointer w)).mark = false :=
        unmark_down (setMark_evolve h a) (avoidPath_start_unmarked hpath)
      have h1 : AvoidPath h a (charly_as_pointer w) :=
        .tail a a _ (.refl a hum) ⟨hne, w, hw, hptr, rfl⟩ hwum
      exact avoidPath_trans h1 (avoidPath_mono (setMark_evolve h a) hpath)

/-- Characterisation of a fold of `gcMark` calls over a list of values,
given the characterisation of a single call on states at most as unmarked
as `bound`. -/
lemma gcMarkFold_char (D : List Nat) (fuel bound : Nat)
    (hchar : ∀ h v, DomClosed h D → TargetOk D v →
      unmarkedCount h D ≤ bound →
      ∀ x, ((gcMark fuel h v) x).mark = true ↔
        ((h x).mark = true ∨ ReachAvoid h v x)) :
    ∀ (ws : List Nat) (h' : Heap), DomClosed h' D →
      (∀ w ∈ ws, TargetOk D w) → unmarkedCount h' D ≤ bound →
      ∀ x, ((ws.foldl (gcMark fuel) h') x).mark = true ↔
        ((h' x).mark = true ∨ ∃ w ∈ ws, ReachAvoid h' w x) := by
  intro ws
  induction ws with
  | nil =>
    intro h' _ _ _ x
    simp
  | cons w t iht =>
    intro h' hdc htg hcnt x
    simp only [List.foldl_cons]
    have hcharw : ∀ y, ((gcMark fuel h' w) y).mark = true ↔
        ((h' y).mark = true ∨ ReachAvoid h' w y) :=
      hchar h' w hdc (htg w (by simp)) hcnt
    have hEv : MarkEvolve h' (gcMark fuel h' w) := gcMark_evolve fuel h' w
    rw [iht (gcMark fuel h' w) (domClosed_congr hEv hdc)
      (fun w1 hw1 => htg w1 (by simp [hw1]))
      (le_trans (unmarkedCount_le hEv D) hcnt) x]
    rw [hcharw x]
    constructor
    · rintro ((hm | hra) | ⟨w1, hw1, hra1⟩)
      · exact Or.inl hm
      · exact Or.inr ⟨w, by simp, hra⟩
      · exact Or.inr ⟨w1, by simp [hw1],
          hra1.1, hra1.2.1, avoidPath_mono hEv hra1.2.2⟩
    · rintro (hm | ⟨w1, hw1, hra1⟩)
      · exact Or.inl (Or.inl hm)
      · rcases List.mem_cons.mp hw1 with rfl | hw1t
        · exact Or.inl (Or.inr hra1)
        · rcases avoidPath_transfer hEv hcharw hra1.2.2 with hp | hr
          · exact Or.inr ⟨w1, hw1t, hra1.1, hra1.2.1, hp⟩
          · exact Or.inl (Or.inr hr)

/-- With fuel exceeding the number of unmarked cells, `gcMark` marks exactly
the previously marked cells plus those reachable through unmarked cells:
the fuel is never what stops the recursion. -/
lemma gcMark_marks_eq (D : List Nat) :
    ∀ (n fuel : Nat) (h : Heap) (v : Nat), DomClosed h D → TargetOk D v →
      unmarkedCount h D = n → n < fuel →
      ∀ x, ((gcMark fuel h v) x).mark = true ↔
        ((h x).mark = true ∨ ReachAvoid h v x) := by
  intro n
  induction n using Nat.strong_induction_on with
  | _ n IH =>
    intro fuel h v hdc htg hcnt hfuel x
    cases fuel with
    | zero => omega
    | succ fuel =>
      unfold gcMark
      by_cases hptr : charly_is_ptr v = true
      · rw [if_pos hptr]
        by_cases h0 : charly_as_pointer v = 0
        · rw [if_pos h0]
          constructor
          · exact Or.inl
          · rintro (hm | ⟨_, hne, _⟩)
            · exact hm
            · exact absurd h0 hne
        · rw [if_neg h0]
          by_cases hm : (h (charly_as_pointer v)).mark = true
          · rw [if_pos hm]
            constructor
            · exact Or.inl
            · rintro (hmx | ⟨_, _, hpath⟩)
              · exact hmx
              · rw [avoidPath_start_unmarked hpath] at hm
                cases hm
          · rw [if_neg hm]
            have hmf : (h (charly_as_pointer v)).mark = false := by
              revert hm
              cases (h (charly_as_pointer v)).mark <;> simp
            have haD : charly_as_pointer v ∈ D := htg hptr h0
            have hlt := unmarkedCount_setMark_lt haD hmf
            have hchar : ∀ h1 v1, DomClosed h1 D → TargetOk D v1 →
                unmarkedCount h1 D ≤ unmarkedCount (setMark h (charly_as_pointer v)) D →
                ∀ y, ((gcMark fuel h1 v1) y).mark = true ↔
                  ((h1 y).mark = true ∨ ReachAvoid h1 v1 y) :=
              fun h1 v1 hdc1 htg1 hle y =>
                IH (unmarkedCount h1 D) (by omega) fuel h1 v1 hdc1 htg1 rfl
                  (by omega) y
            have hEva : MarkEvolve h (setMark h (charly_as_pointer v)) :=
              setMark_evolve h (charly_as_pointer v)
            have hfold := gcMarkFold_char D fuel
              (unmarkedCount (setMark h (charly_as_pointer v)) D) hchar
              (cellChildren (h (charly_as_pointer v)))
              (setMark h (charly_as_pointer v))
              (domClosed_congr hEva hdc)
              (fun w hw hptrw hnew => hdc _ haD w hw hptrw hnew)
              (le_refl _) x
            rw [hfold]
            constructor
            · rintro (hmx | ⟨w, hw, hra⟩)
              · by_cases hxa : x = charly_as_pointer v
                · subst hxa
                  exact Or.inr ⟨hptr, h0, .refl _ hmf⟩
                · left
                  simpa [setMark, hxa] using hmx
              · right
                exact ⟨hptr, h0, (avoid_decomp h _ hmf x).mpr
                  (Or.inr ⟨w, hw, hra⟩)⟩
            · rintro (hmx | ⟨_, _, hpath⟩)
              · left
                by_cases hxa : x = charly_as_pointer v <;>
                  simp [setMark, hxa, hmx]
              · rcases (avoid_decomp h _ hmf x).mp hpath with hxa | ⟨w, hw, hra⟩
                · subst hxa
                  left
                  simp [setMark]
                · right
                  exact ⟨w, hw, hra⟩
      · rw [if_neg hptr]
        constructor
        · exact Or.inl
        · rintro (hm | ⟨hp, _, _⟩)
          · exact hm
          · exact absurd hp hptr

/-- Characterisation of the whole root-marking phase. -/
lemma gcMarkRoots_char (D : List Nat) (roots : List Nat) (h : Heap)
    (hdc : DomClosed h D) (htg : ∀ v ∈ roots, TargetOk D v) (fuel : Nat)
    (hf : unmarkedCount h D < fuel) :
    ∀ x, ((roots.foldl (gcMark fuel) h) x).mark = true ↔
      ((h x).mark = true ∨ ∃ v ∈ roots, ReachAvoid h v x) :=
  gcMarkFold_char D fuel (unmarkedCount h D)
    (fun h1 v1 hdc1 htg1 hle y =>
      gcMark_marks_eq D (unmarkedCount h1 D) fuel h1 v1 hdc1 htg1 rfl
        (by omega) y)
    roots h hdc htg (le_refl _)

/-- When all arena marks are clear, reachability through unmarked cells is
plain reachability. -/
lemma reachAvoid_iff_reaches (h : Heap) (D : List Nat) (hdc : DomClosed h D)
    (hclear : ∀ a ∈ D, (h a).mark = false) (v : Nat) (htg : TargetOk D v)
    (x : Nat) : ReachAvoid h v x ↔ ReachesFrom h v x := by
  constructor
  · rintro ⟨h1, h2, hp⟩
    refine ⟨h1, h2, ?_⟩
    induction hp with
    | refl _ => exact .refl
    | tail b c p e m ih => exact .tail ih e
  · rintro ⟨h1, h2, hp⟩
    refine ⟨h1, h2, ?_⟩
    have key : ∀ y,
        Relation.ReflTransGen (EdgeOf h) (charly_as_pointer v) y →
        y ∈ D ∧ AvoidPath h (charly_as_pointer v) y := by
      intro y hy
      induction hy with
      | refl => exact ⟨htg h1 h2, .refl _ (hclear _ (htg h1 h2))⟩
      | @tail b c p e ih =>
        obtain ⟨hbD, hpath⟩ := ih
        obtain ⟨hne, w, hw, hptrw, haddr⟩ := e
        have hcD : c ∈ D := by
          rw [← haddr]
          exact hdc b hbD w hw hptrw (by rw [haddr]; exact hne)
        exact ⟨hcD, .tail _ b c hpath ⟨hne, w, hw, hptrw, haddr⟩
          (hclear c hcD)⟩
    exact (key x hp).2

/-! ### Sweep-phase correctness -/

/-- The `k`-th cell on the freelist, following `free.next` links from
`free_cell`. -/
def freelistNth (g : GCState) : Nat → Nat
  | 0 => g.free_cell
  | k + 1 => readFreeNext (g.cells (freelistNth g k))

/-- The cell at `a` is on the freelist chain. -/
def onFreelist (g : GCState) (a : Nat) : Prop := ∃ k, freelistNth g k = a

lemma sweepStep_cells_other (acc : GCState × List Nat) (a x : Nat)
    (hx : x ≠ a) : ((sweepStep acc a).1.cells x) = acc.1.cells x := by
  unfold sweepStep gcDeallocate
  by_cases hm : (acc.1.cells a).mark = true
  · simp [hm, hx]
  · by_cases hd : isDeadData (acc.1.cells a).data = true
    · simp [hm, hd]
    · simp [hm, hd, hx]

lemma sweepStep_heaps (acc : GCState × List Nat) (a : Nat) :
    (sweepStep acc a).1.heaps = acc.1.heaps ∧
    (sweepStep acc a).1.config = acc.1.config := by
  unfold sweepStep gcDeallocate
  by_cases hm : (acc.1.cells a).mark = true
  · simp [hm]
  · by_cases hd : isDeadData (acc.1.cells a).data = true
    · simp [hm, hd]
    · simp [hm, hd]

/-- The sweep scan: every address is visited once (`Nodup`); marked cells
are unmarked in place, dead cells are skipped, and the rest are
deallocated, in scan order.  All statements are relative to the cells at
entry of the fold. -/
lemma sweep_fold_spec :
    ∀ (todo : List Nat) (g : GCState) (acc : List Nat), todo.Nodup →
      ((todo.foldl sweepStep (g, acc)).1.heaps = g.heaps ∧
       (todo.foldl sweepStep (g, acc)).1.config = g.config) ∧
      (todo.foldl sweepStep (g, acc)).2 =
        acc ++ todo.filter
          (fun a => !(g.cells a).mark && !(isDeadData (g.cells a).data)) ∧
      (∀ x, x ∉ todo → (todo.foldl sweepStep (g, acc)).1.cells x = g.cells x) ∧
      (∀ a ∈ todo, (g.cells a).mark = true →
        (todo.foldl sweepStep (g, acc)).1.cells a =
          { g.cells a with mark := false }) ∧
      (∀ a ∈ todo, (g.cells a).mark = false →
        isDeadData (g.cells a).data = true →
        (todo.foldl sweepStep (g, acc)).1.cells a = g.cells a) ∧
      (∀ a ∈ todo, (g.cells a).mark = false →
        isDeadData (g.cells a).data = false →
        ∃ nxt, (todo.foldl sweepStep (g, acc)).1.cells a =
          ⟨false, false, false, .dead nxt⟩) := by
  intro todo
  induction todo with
  | nil =>
    intro g acc _
    simp
  | cons a rest ih =>
    intro g acc hnd
    have hna : a ∉ rest := (List.nodup_cons.mp hnd).1
    have hndr : rest.Nodup := (List.nodup_cons.mp hnd).2
    simp only [List.foldl_cons]
    -- the state after the first step
    obtain ⟨g1, acc1, hstep⟩ :
        ∃ g1 acc1, sweepStep (g, acc) a = (g1, acc1) := ⟨_, _, rfl⟩
    have hg1cells : ∀ x, x ≠ a → g1.cells x = g.cells x := by
      intro x hx
      have := sweepStep_cells_other (g, acc) a x hx
      rw [hstep] at this
      exact this
    have hg1hc : g1.heaps = g.heaps ∧ g1.config = g.config := by
      have := sweepStep_heaps (g, acc) a
      rw [hstep] at this
      exact this
    have hfcongr : rest.filter
        (fun x => !(g1.cells x).mark && !(isDeadData (g1.cells x).data)) =
        rest.filter
        (fun x => !(g.cells x).mark && !(isDeadData (g.cells x).data)) := by
      apply List.filter_congr
      intro x hx
      rw [hg1cells x (fun hxa => hna (hxa ▸ hx))]
    have hIH := ih g1 acc1 hndr
    rw [hstep]
    obtain ⟨⟨ihh, ihc⟩, ihfreed, ihother, ihmark, ihdead, ihfree⟩ := hIH
    -- analyse the step itself
    have hstep_cases :
        ((g.cells a).mark = true ∧
          g1.cells a = { g.cells a with mark := false } ∧ acc1 = acc) ∨
        ((g.cells a).mark = false ∧ isDeadData (g.cells a).data = true ∧
          g1.cells a = g.cells a ∧ acc1 = acc) ∨
        ((g.cells a).mark = false ∧ isDeadData (g.cells a).data = false ∧
          g1.cells a = ⟨false, false, false, .dead g.free_cell⟩ ∧
          acc1 = acc ++ [a]) := by
      unfold sweepStep at hstep
      by_cases hm : (g.cells a).mark = true
      · rw [if_pos hm] at hstep
        left
        obtain ⟨h1, h2⟩ := Prod.mk.injEq .. ▸ hstep
        refine ⟨hm, ?_, h2.symm ▸ rfl⟩
        · rw [← h1]
          simp
      · have hmf : (g.cells a).mark = false := by
          revert hm
          cases (g.cells a).mark <;> simp
        rw [if_neg hm] at hstep
        by_cases hdead : isDeadData (g.cells a).data = true
        · rw [if_pos hdead] at hstep
          right; left
          obtain ⟨h1, h2⟩ := Prod.mk.injEq .. ▸ hstep
          exact ⟨hmf, hdead, by rw [← h1], by rw [← h2]⟩
        · have hdf : isDeadData (g.cells a).data = false := by
            revert hdead
            cases isDeadData (g.cells a).data <;> simp
          rw [if_neg hdead] at hstep
          right; right
          obtain ⟨h1, h2⟩ := Prod.mk.injEq .. ▸ hstep
          refine ⟨hmf, hdf, ?_, by rw [← h2]⟩
          rw [← h1]
          unfold gcDeallocate
          simp
    have hacc1 : acc1 = acc ++
        (if !(g.cells a).mark && !(isDeadData (g.cells a).data)
         then [a] else []) := by
      rcases hstep_cases with ⟨hm, _, ha⟩ | ⟨hm, hd, _, ha⟩ | ⟨hm, hd, _, ha⟩
      · simp [ha, hm]
      · simp [ha, hm, hd]
      · simp [ha, hm, hd]
    refine ⟨⟨ihh.trans hg1hc.1, ihc.trans hg1hc.2⟩, ?_, ?_, ?_, ?_, ?_⟩
    · rw [ihfreed, hfcongr, hacc1, List.filter_cons]
      by_cases hcond : (!(g.cells a).mark && !(isDeadData (g.cells a).data)) = true
      · simp [hcond]
      · have : (!(g.cells a).mark && !(isDeadData (g.cells a).data)) = false := by
          revert hcond
          cases (!(g.cells a).mark && !(isDeadData (g.cells a).data)) <;> simp
        simp [this]
    · intro x hx
      have hxa : x ≠ a := fun hxa => hx (by simp [hxa])
      have hxr : x ∉ rest := fun hxr => hx (by simp [hxr])
      rw [ihother x hxr, hg1cells x hxa]
    · intro b hb hbm
      rcases List.mem_cons.mp hb with rfl | hbr
      · rw [ihother b hna]
        rcases hstep_cases with ⟨_, hc, _⟩ | ⟨hm, _, _, _⟩ | ⟨hm, _, _, _⟩
        · exact hc
        · rw [hbm] at hm; cases hm
        · rw [hbm] at hm; cases hm
      · have hba : b ≠ a := fun hba => hna (hba ▸ hbr)
        rw [← hg1cells b hba] at hbm
        rw [ihmark b hbr hbm, hg1cells b hba]
    · intro b hb hbm hbd
      rcases List.mem_cons.mp hb with rfl | hbr
      · rw [ihother b hna]
        rcases hstep_cases with ⟨hm, _, _⟩ | ⟨_, _, hc, _⟩ | ⟨_, hd, _, _⟩
        · rw [hbm] at hm; cases hm
        · exact hc
        · rw [hbd] at hd; cases hd
      · have hba : b ≠ a := fun hba => hna (hba ▸ hbr)
        rw [← hg1cells b hba] at hbm hbd
        rw [ihdead b hbr hbm hbd, hg1cells b hba]
    · intro b hb hbm hbd
      rcases List.mem_cons.mp hb with rfl | hbr
      · refine ⟨g.free_cell, ?_⟩
        rw [ihother b hna]
        rcases hstep_cases with ⟨hm, _, _⟩ | ⟨_, hd, _, _⟩ | ⟨_, _, hc, _⟩
        · rw [hbm] at hm; cases hm
        · rw [hbd] at hd; cases hd
        · exact hc
      · have hba : b ≠ a := fun hba => hna (hba ▸ hbr)
        rw [← hg1cells b hba] at hbm hbd
        obtain ⟨nxt, hn⟩ := ihfree b hbr hbm hbd
        exact ⟨nxt, by rw [hn]⟩

lemma freelistNth_congr (g1 g2 : GCState)
    (hc : ∀ x, (g2.cells x).data = (g1.cells x).data)
    (hf : g2.free_cell = g1.free_cell) :
    ∀ i, freelistNth g2 i = freelistNth g1 i := by
  intro i
  induction i with
  | zero => exact hf
  | succ i ihi =>
    show readFreeNext (g2.cells (freelistNth g2 i)) = _
    rw [ihi]
    unfold readFreeNext
    rw [hc]
    rfl

/-- The freelist prefix after the sweep lists the freed cells, most recent
first. -/
lemma sweep_fold_freelist :
    ∀ (todo : List Nat) (g : GCState) (acc : List Nat), todo.Nodup →
      (∀ b ∈ acc, b ∉ todo) →
      (∀ i, i < acc.length → freelistNth g i = acc.reverse.getD i 0) →
      ∀ i, i < (todo.foldl sweepStep (g, acc)).2.length →
        freelistNth (todo.foldl sweepStep (g, acc)).1 i =
          (todo.foldl sweepStep (g, acc)).2.reverse.getD i 0 := by
  intro todo
  induction todo with
  | nil =>
    intro g acc _ _ hInv
    simpa using hInv
  | cons a rest ih =>
    intro g acc hnd hdisj hInv
    have hna : a ∉ rest := (List.nodup_cons.mp hnd).1
    have hndr : rest.Nodup := (List.nodup_cons.mp hnd).2
    simp only [List.foldl_cons]
    unfold sweepStep
    by_cases hm : (g.cells a).mark = true
    · rw [if_pos hm]
      apply ih _ _ hndr (fun b hb => fun hbr => hdisj b hb (by simp [hbr]))
      intro i hi
      rw [← hInv i hi]
      apply freelistNth_congr
      · intro x
        by_cases hx : x = a <;> simp [hx]
      · rfl
    · rw [if_neg hm]
      by_cases hdead : isDeadData (g.cells a).data = true
      · rw [if_pos hdead]
        exact ih _ _ hndr
          (fun b hb => fun hbr => hdisj b hb (by simp [hbr])) hInv
      · rw [if_neg hdead]
        apply ih _ _ hndr
        · intro b hb hbr
          rcases List.mem_append.mp hb with hb | hb
          · exact hdisj b hb (by simp [hbr])
          · simp only [List.mem_singleton] at hb
            exact hna (hb ▸ hbr)
        · -- invariant for the extended freed list
          intro i hi
          simp only [List.length_append, List.length_singleton] at hi
          have hInv2 : ∀ j, j < acc.length →
              freelistNth (gcDeallocate g a) (j + 1) = freelistNth g j := by
            intro j
            induction j with
            | zero =>
              intro _
              show readFreeNext ((gcDeallocate g a).cells
                (freelistNth (gcDeallocate g a) 0)) = _
              unfold gcDeallocate freelistNth readFreeNext
              simp
            | succ j ihj =>
              intro hj
              have hjl : j < acc.length := by omega
              show readFreeNext ((gcDeallocate g a).cells
                (freelistNth (gcDeallocate g a) (j + 1))) = _
              rw [ihj hjl]
              have hmem : freelistNth g j ∈ acc := by
                rw [hInv j hjl]
                have hjr : j < acc.reverse.length := by simpa using hjl
                rw [List.getD_eq_getElem _ _ hjr]
                exact List.mem_reverse.mp (List.getElem_mem hjr)
              have hne : freelistNth g j ≠ a :=
                fun he => hdisj _ (he ▸ hmem) (by simp)
              show readFreeNext (if freelistNth g j = a then _ else
                g.cells (freelistNth g j)) = _
              rw [if_neg hne]
              rfl
          rcases Nat.eq_zero_or_pos i with rfl | hipos
          · show (gcDeallocate g a).free_cell = _
            unfold gcDeallocate
            simp
          · obtain ⟨j, rfl⟩ : ∃ j, i = j + 1 := ⟨i - 1, by omega⟩
            have hjl : j < acc.length := by omega
            rw [hInv2 j hjl, hInv j hjl]
            rw [List.reverse_append]
            simp

/-! ### Collection: the full specification -/

lemma cell_ext {c c' : Cell} (h1 : c.f1 = c'.f1) (h2 : c.f2 = c'.f2)
    (h3 : c.mark = c'.mark) (h4 : c.data = c'.data) : c = c' := by
  cases c; cases c'
  simp only at h1 h2 h3 h4
  subst h1; subst h2; subst h3; subst h4
  rfl

lemma markRootsFold_evolve (fuel : Nat) :
    ∀ (roots : List Nat) (h : Heap),
      MarkEvolve h (roots.foldl (gcMark fuel) h) := by
  intro roots
  induction roots with
  | nil => intro h; exact markEvolve_refl h
  | cons v t iht =>
    intro h
    exact (gcMark_evolve fuel h v).comp (iht (gcMark fuel h v))

lemma reaches_mem (h : Heap) (D : List Nat) (hdc : DomClosed h D) (v x : Nat)
    (htg : TargetOk D v) (hr : ReachesFrom h v x) : x ∈ D := by
  obtain ⟨h1, h2, hp⟩ := hr
  induction hp with
  | refl => exact htg h1 h2
  | @tail b c p e ih =>
    obtain ⟨hne, w, hw, hptr, haddr⟩ := e
    rw [← haddr]
    exact hdc b ih w hw hptr (by rw [haddr]; exact hne)

lemma reaches_congr_fwd (h h' : Heap) (v : Nat)
    (hag : ∀ y, ReachesFrom h v y →
      (h' y).data = (h y).data ∧ (h' y).f1 = (h y).f1) :
    ∀ x, ReachesFrom h v x → ReachesFrom h' v x := by
  rintro x ⟨h1, h2, hp⟩
  refine ⟨h1, h2, ?_⟩
  induction hp with
  | refl => exact .refl
  | @tail b c p e ih =>
    refine .tail ih ?_
    obtain ⟨hd, hf1⟩ := hag b ⟨h1, h2, p⟩
    obtain ⟨hne, w, hw, hptr, haddr⟩ := e
    refine ⟨hne, w, ?_, hptr, haddr⟩
    rw [@cellChildren_congr (h' b) (h b) hd hf1]
    exact hw

lemma reaches_congr_rev (h h' : Heap) (v : Nat)
    (hag : ∀ y, ReachesFrom h v y →
      (h' y).data = (h y).data ∧ (h' y).f1 = (h y).f1) :
    ∀ x, ReachesFrom h' v x → ReachesFrom h v x := by
  rintro x ⟨h1, h2, hp⟩
  refine ⟨h1, h2, ?_⟩
  induction hp with
  | refl => exact .refl
  | @tail b c p e ih =>
    refine .tail ih ?_
    obtain ⟨hd, hf1⟩ := hag b ⟨h1, h2, ih⟩
    obtain ⟨hne, w, hw, hptr, haddr⟩ := e
    refine ⟨hne, w, ?_, hptr, haddr⟩
    rw [← @cellChildren_congr (h' b) (h b) hd hf1]
    exact hw

/-- The full specification of one `collect()`: reachable arena cells keep
their contents with the mark bit cleared; unreachable non-dead cells are
deallocated (zeroed, re-tagged Dead, pushed onto the freelist, and listed in
the freed log exactly once); unreachable already-dead cells are untouched
and never freed again; the freed log stays within the arenas; all marks end
up clear. -/
lemma gcCollect_spec (g : GCState) (roots : List Nat)
    (hnd : (arenaAddrs g).Nodup)
    (hdc : DomClosed g.cells (arenaAddrs g))
    (hroots : ∀ v ∈ roots, TargetOk (arenaAddrs g) v)
    (hclear : ∀ a ∈ arenaAddrs g, (g.cells a).mark = false) :
    (gcCollect roots g).1.heaps = g.heaps ∧
    (gcCollect roots g).1.config = g.config ∧
    (∀ a ∈ arenaAddrs g, RootReachable g.cells roots a →
      (gcCollect roots g).1.cells a = { g.cells a with mark := false } ∧
      a ∉ (gcCollect roots g).2) ∧
    (∀ a ∈ arenaAddrs g, ¬RootReachable g.cells roots a →
      isDeadData (g.cells a).data = false →
      a ∈ (gcCollect roots g).2 ∧
      (∃ nxt, (gcCollect roots g).1.cells a =
        ⟨false, false, false, .dead nxt⟩) ∧
      onFreelist (gcCollect roots g).1 a) ∧
    (∀ a ∈ arenaAddrs g, ¬RootReachable g.cells roots a →
      isDeadData (g.cells a).data = true →
      (gcCollect roots g).1.cells a = g.cells a) ∧
    (∀ a, a ∈ (gcCollect roots g).2 → a ∈ arenaAddrs g) ∧
    (∀ a, isDeadData (g.cells a).data = true → a ∉ (gcCollect roots g).2) ∧
    (∀ a ∈ arenaAddrs g, ((gcCollect roots g).1.cells a).mark = false) := by
  have hcnt : unmarkedCount g.cells (arenaAddrs g) < (arenaAddrs g).length + 1 := by
    have := List.length_filter_le (fun a => !(g.cells a).mark) (arenaAddrs g)
    unfold unmarkedCount
    omega
  set D := arenaAddrs g with hD
  set M := roots.foldl (gcMark (D.length + 1)) g.cells with hM
  have hEvM : MarkEvolve g.cells M := markRootsFold_evolve _ roots g.cells
  have hchar : ∀ x, (M x).mark = true ↔
      ((g.cells x).mark = true ∨ ∃ v ∈ roots, ReachAvoid g.cells v x) :=
    gcMarkRoots_char D roots g.cells hdc hroots (D.length + 1) hcnt
  have hmreach : ∀ a, a ∈ D →
      ((M a).mark = true ↔ RootReachable g.cells roots a) := by
    intro a ha
    rw [hchar a]
    constructor
    · rintro (hm | ⟨v, hv, hra⟩)
      · rw [hclear a ha] at hm; cases hm
      · exact ⟨v, hv, (reachAvoid_iff_reaches g.cells D hdc hclear v
          (hroots v hv) a).mp hra⟩
    · rintro ⟨v, hv, hr⟩
      exact Or.inr ⟨v, hv, (reachAvoid_iff_reaches g.cells D hdc hclear v
        (hroots v hv) a).mpr hr⟩
  have hmdata : ∀ a, (M a).data = (g.cells a).data ∧ (M a).f1 = (g.cells a).f1 ∧
      (M a).f2 = (g.cells a).f2 := fun a => ⟨(hEvM a).1, (hEvM a).2.1, (hEvM a).2.2.1⟩
  have hcollect : gcCollect roots g = D.foldl sweepStep ({g with cells := M}, []) :=
    rfl
  have hsw := sweep_fold_spec D {g with cells := M} [] hnd
  obtain ⟨⟨hswh, hswc⟩, hswfreed, hswother, hswmark, hswdead, hswfree⟩ := hsw
  have hfreedeq : (gcCollect roots g).2 =
      D.filter (fun a => !(M a).mark && !(isDeadData (M a).data)) := by
    rw [hcollect, hswfreed]
    rfl
  have hfl := sweep_fold_freelist D {g with cells := M} [] hnd
    (by intro b hb; cases hb) (by intro i hi; cases hi)
  refine ⟨by rw [hcollect]; exact hswh, by rw [hcollect]; exact hswc,
    ?_, ?_, ?_, ?_, ?_, ?_⟩
  · -- reachable cells: unmarked in place, not freed
    intro a ha hreach
    have hmark : (M a).mark = true := (hmreach a ha).mpr hreach
    constructor
    · rw [hcollect]
      have := hswmark a ha hmark
      rw [this]
      exact cell_ext (hmdata a).2.1 (hmdata a).2.2 rfl (hmdata a).1
    · rw [hfreedeq]
      intro hmem
      have := (List.mem_filter.mp hmem).2
      rw [hmark] at this
      simp at this
  · -- unreachable non-dead cells: freed, zeroed Dead, on the freelist
    intro a ha hreach hdead
    have hmark : (M a).mark = false := by
      cases hq : (M a).mark
      · rfl
      · exact absurd ((hmreach a ha).mp hq) hreach
    have hmdead : isDeadData (M a).data = false := by
      rw [(hmdata a).1]; exact hdead
    have hmem : a ∈ (gcCollect roots g).2 := by
      rw [hfreedeq]
      refine List.mem_filter.mpr ⟨ha, ?_⟩
      rw [hmark, hmdead]
      rfl
    refine ⟨hmem, ?_, ?_⟩
    · rw [hcollect]
      exact hswfree a ha hmark hmdead
    · -- on the freelist via the freed-prefix invariant
      have hmem2 : a ∈ (D.foldl sweepStep ({g with cells := M}, [])).2 := by
        rw [← hcollect]; exact hmem
      have hmemr : a ∈ (D.foldl sweepStep ({g with cells := M}, [])).2.reverse :=
        List.mem_reverse.mpr hmem2
      obtain ⟨i, hilt, hieq⟩ := List.mem_iff_getElem.mp hmemr
      have hilt2 : i < (D.foldl sweepStep ({g with cells := M}, [])).2.length := by
        simpa using hilt
      have := hfl i hilt2
      refine ⟨i, ?_⟩
      rw [hcollect]
      rw [this, List.getD_eq_getElem _ _ hilt, hieq]
  · -- unreachable dead cells: untouched
    intro a ha hreach hdead
    have hmark : (M a).mark = false := by
      cases hq : (M a).mark
      · rfl
      · exact absurd ((hmreach a ha).mp hq) hreach
    have hmdead : isDeadData (M a).data = true := by
      rw [(hmdata a).1]; exact hdead
    rw [hcollect]
    have := hswdead a ha hmark hmdead
    rw [this]
    show M a = g.cells a
    refine cell_ext (hmdata a).2.1 (hmdata a).2.2 ?_ (hmdata a).1
    rw [hmark, hclear a ha]
  · -- the freed log stays within the arenas
    intro a hmem
    rw [hfreedeq] at hmem
    exact (List.mem_filter.mp hmem).1
  · -- dead cells are never freed
    intro a hdead hmem
    rw [hfreedeq] at hmem
    have := (List.mem_filter.mp hmem).2
    have hmd : isDeadData (M a).data = true := by rw [(hmdata a).1]; exact hdead
    rw [hmd] at this
    simp at this
  · -- all marks clear after the sweep
    intro a ha
    rw [hcollect]
    cases hq : (M a).mark
    · by_cases hdq : isDeadData (M a).data = true
      · rw [hswdead a ha hq hdq]
        exact hq
      · have hdq2 : isDeadData (M a).data = false := by
          revert hdq; cases isDeadData (M a).data <;> simp
        obtain ⟨nxt, hn⟩ := hswfree a ha hq hdq2
        rw [hn]
    · rw [hswmark a ha hq]

/-- A concrete three-cell heap exercising `collect`: cell 1 is an array
holding a pointer to cell 2 (a string); cell 3 is an unreachable object. -/
def gcWitnessState : GCState :=
  { cells := fun a =>
      if a = 1 then ⟨false, false, false, .array [kSignaturePointer + 2]⟩
      else if a = 2 then ⟨false, false, false, .string [104, 105]⟩
      else if a = 3 then ⟨false, false, false, .object 0 []⟩
      else ⟨false, false, false, .dead 0⟩,
    heaps := [[1, 2, 3]],
    free_cell := 0,
    remaining_free_cells := 0,
    config := ⟨3, 0, 2⟩ }

def gcWitnessRoots : List Nat := [kSignaturePointer + 1]

/-- **C1.** Over a well-formed collector state (arena addresses without
duplicates, cell children pointing back into the arenas, roots pointing into
the arenas, all mark bits clear — the invariants `collect` itself relies on
and re-establishes), after `collect()` returns: every arena cell reachable
from the root set has its mark bit cleared and keeps its contents and is not
deallocated; every unreachable non-dead cell has been deallocated — zeroed,
re-tagged Dead and pushed onto the freelist; a cell already tagged Dead is
never deallocated; and a second collection with no intervening mutation
frees zero cells. -/
theorem gc_collect_claim (g : GCState) (roots : List Nat)
    (hnd : (arenaAddrs g).Nodup)
    (hdc : DomClosed g.cells (arenaAddrs g))
    (hroots : ∀ v ∈ roots, TargetOk (arenaAddrs g) v)
    (hclear : ∀ a ∈ arenaAddrs g, (g.cells a).mark = false) :
    (∀ a ∈ arenaAddrs g, RootReachable g.cells roots a →
      (gcCollect roots g).1.cells a = { g.cells a with mark := false } ∧
      a ∉ (gcCollect roots g).2) ∧
    (∀ a ∈ arenaAddrs g, ¬RootReachable g.cells roots a →
      isDeadData (g.cells a).data = false →
      a ∈ (gcCollect roots g).2 ∧
      (∃ nxt, (gcCollect roots g).1.cells a =
        ⟨false, false, false, .dead nxt⟩) ∧
      onFreelist (gcCollect roots g).1 a) ∧
    (∀ a, isDeadData (g.cells a).data = true → a ∉ (gcCollect roots g).2) ∧
    (gcCollect roots (gcCollect roots g).1).2 = [] := by
  obtain ⟨hh, _hc, hreach, hfree, hdeadkeep, hsub, hdeadnf, hmk⟩ :=
    gcCollect_spec g roots hnd hdc hroots hclear
  refine ⟨hreach, hfree, hdeadnf, ?_⟩
  set g' := (gcCollect roots g).1 with hg'
  have hD' : arenaAddrs g' = arenaAddrs g := by
    unfold arenaAddrs; rw [hh]
  have hnd' : (arenaAddrs g').Nodup := by rw [hD']; exact hnd
  have hclear' : ∀ a ∈ arenaAddrs g', (g'.cells a).mark = false := by
    rw [hD']; exact hmk
  have hroots' : ∀ v ∈ roots, TargetOk (arenaAddrs g') v := by
    rw [hD']; exact hroots
  have hag : ∀ v ∈ roots, ∀ y, ReachesFrom g.cells v y →
      (g'.cells y).data = (g.cells y).data ∧
      (g'.cells y).f1 = (g.cells y).f1 := by
    intro v hv y hy
    have hyD : y ∈ arenaAddrs g :=
      reaches_mem g.cells (arenaAddrs g) hdc v y (hroots v hv) hy
    have hcy := (hreach y hyD ⟨v, hv, hy⟩).1
    rw [hcy]
    exact ⟨rfl, rfl⟩
  have hiff : ∀ x, RootReachable g'.cells roots x ↔
      RootReachable g.cells roots x := by
    intro x
    constructor
    · rintro ⟨v, hv, hr⟩
      exact ⟨v, hv, reaches_congr_rev g.cells g'.cells v (hag v hv) x hr⟩
    · rintro ⟨v, hv, hr⟩
      exact ⟨v, hv, reaches_congr_fwd g.cells g'.cells v (hag v hv) x hr⟩
  have hdc' : DomClosed g'.cells (arenaAddrs g') := by
    rw [hD']
    intro a ha w hw
    by_cases hra : RootReachable g.cells roots a
    · rw [@cellChildren_congr (g'.cells a) (g.cells a)
        (by rw [(hreach a ha hra).1]) (by rw [(hreach a ha hra).1])] at hw
      exact hdc a ha w hw
    · by_cases hda : isDeadData (g.cells a).data = true
      · rw [hdeadkeep a ha hra hda] at hw
        exact hdc a ha w hw
      · have hda2 : isDeadData (g.cells a).data = false := by
          revert hda; cases isDeadData (g.cells a).data <;> simp
        obtain ⟨nxt, hn⟩ := (hfree a ha hra hda2).2.1
        rw [hn] at hw
        simp [cellChildren] at hw
  obtain ⟨_, _, hreach2, _, _, hsub2, hdeadnf2, _⟩ :=
    gcCollect_spec g' roots hnd' hdc' hroots' hclear'
  rw [List.eq_nil_iff_forall_not_mem]
  intro a hmem
  have haD : a ∈ arenaAddrs g := by rw [← hD']; exact hsub2 a hmem
  by_cases hra : RootReachable g.cells roots a
  · exact (hreach2 a (by rw [hD']; exact haD) ((hiff a).mpr hra)).2 hmem
  · by_cases hda : isDeadData (g.cells a).data = true
    · exact hdeadnf2 a (by rw [hdeadkeep a haD hra hda]; exact hda) hmem
    · have hda2 : isDeadData (g.cells a).data = false := by
        revert hda; cases isDeadData (g.cells a).data <;> simp
      obtain ⟨nxt, hn⟩ := (hfree a haD hra hda2).2.1
      exact hdeadnf2 a (by rw [hn]; exact rfl) hmem

/-- `gc_collect_claim` at the concrete three-cell heap: the second
collection frees nothing. -/
theorem gc_collect_claim_witness :
    (arenaAddrs gcWitnessState).Nodup ∧
    (gcCollect gcWitnessRoots
      (gcCollect gcWitnessRoots gcWitnessState).1).2 = [] :=
  ⟨by decide,
   (gc_collect_claim gcWitnessState gcWitnessRoots (by decide)
     (by unfold DomClosed; decide) (by unfold TargetOk; decide)
     (by decide)).2.2.2⟩

/-! ### Heap growth and allocation (`add_heap`, `grow_heap`, `allocate`) -/

lemma gcSweepFold_preserve : ∀ (D : List Nat) (acc : GCState × List Nat),
    (D.foldl sweepStep acc).1.heaps = acc.1.heaps ∧
    (D.foldl sweepStep acc).1.config = acc.1.config := by
  intro D
  induction D with
  | nil => intro acc; exact ⟨rfl, rfl⟩
  | cons a t ih =>
    intro acc
    have h1 := sweepStep_heaps acc a
    have h2 := ih (sweepStep acc a)
    simp only [List.foldl_cons]
    exact ⟨h2.1.trans h1.1, h2.2.trans h1.2⟩

/-- `collect` never changes the arena list or the configuration. -/
lemma gcCollect_preserve (roots : List Nat) (g : GCState) :
    (gcCollect roots g).1.heaps = g.heaps ∧
    (gcCollect roots g).1.config = g.config :=
  gcSweepFold_preserve (arenaAddrs g) _

/-- A fresh arena base address: past every existing arena cell, and nonzero. -/
def freshBase (g : GCState) : Nat := (arenaAddrs g).foldr max 0 + 1

/-- `GarbageCollector::add_heap()`: `calloc` a zeroed arena of
`heap_cell_count` cells (zeroed means type Dead), push it onto `heaps`,
bump `remaining_free_cells`, and thread the arena onto the freelist —
cell 0 links to the old `free_cell` and the new `free_cell` is the last
cell of the arena (or the old one for an empty arena). -/
def gcAddHeap (g : GCState) : GCState :=
  { cells := fun x =>
      if x < freshBase g ∨ freshBase g + g.config.heap_cell_count ≤ x then
        g.cells x
      else
        ⟨false, false, false,
          .dead (if x = freshBase g then g.free_cell else x - 1)⟩,
    heaps := g.heaps ++
      [(List.range g.config.heap_cell_count).map (fun i => freshBase g + i)],
    free_cell :=
      if g.config.heap_cell_count = 0 then g.free_cell
      else freshBase g + g.config.heap_cell_count - 1,
    remaining_free_cells :=
      (g.remaining_free_cells + g.config.heap_cell_count) % 2 ^ 64,
    config := g.config }

/-- `while (heaps_to_add--) this->add_heap();` -/
def gcAddHeaps : Nat → GCState → GCState
  | 0, g => g
  | n + 1, g => gcAddHeaps n (gcAddHeap g)

/-- `GarbageCollector::grow_heap()`:
`size_t heaps_to_add = (heap_count * factor + 1) - heap_count;` with
`size_t` (wrapping) arithmetic, then that many `add_heap` calls. -/
def gcGrowHeap (g : GCState) : GCState :=
  gcAddHeaps
    ((((g.heaps.length % 2 ^ 64) * (g.config.heap_growth_factor % 2 ^ 64)
        + 1) % 2 ^ 64
      + (2 ^ 64 - g.heaps.length % 2 ^ 64)) % 2 ^ 64) g

lemma gcAddHeap_config (g : GCState) : (gcAddHeap g).config = g.config := rfl

lemma gcAddHeap_free (g : GCState) (hn : 1 ≤ g.config.heap_cell_count) :
    (gcAddHeap g).free_cell ≠ 0 := by
  show (if g.config.heap_cell_count = 0 then g.free_cell
      else freshBase g + g.config.heap_cell_count - 1) ≠ 0
  rw [if_neg (by omega)]
  unfold freshBase
  omega

lemma gcAddHeaps_config : ∀ (n : Nat) (g : GCState),
    (gcAddHeaps n g).config = g.config := by
  intro n
  induction n with
  | zero => intro g; rfl
  | succ n ih =>
    intro g
    show (gcAddHeaps n (gcAddHeap g)).config = g.config
    rw [ih (gcAddHeap g), gcAddHeap_config]

lemma gcAddHeaps_free : ∀ (n : Nat) (g : GCState),
    1 ≤ g.config.heap_cell_count → 1 ≤ n →
    (gcAddHeaps n g).free_cell ≠ 0 := by
  intro n
  induction n with
  | zero => intro g _ h1; omega
  | succ n ih =>
    intro g hc _
    cases n with
    | zero => exact gcAddHeap_free g hc
    | succ m =>
      exact ih (gcAddHeap g) (by rw [gcAddHeap_config]; exact hc) (by omega)

lemma gcAddHeaps_heaps_len : ∀ (n : Nat) (g : GCState),
    (gcAddHeaps n g).heaps.length = g.heaps.length + n := by
  intro n
  induction n with
  | zero => intro g; rfl
  | succ n ih =>
    intro g
    show (gcAddHeaps n (gcAddHeap g)).heaps.length = g.heaps.length + (n + 1)
    rw [ih (gcAddHeap g)]
    show (g.heaps ++ _).length + n = g.heaps.length + (n + 1)
    simp
    omega

lemma gcGrowHeap_toAdd (g : GCState)
    (hf : 1 ≤ g.config.heap_growth_factor)
    (hb : g.heaps.length * g.config.heap_growth_factor + 1 < 2 ^ 64)
    (hfb : g.config.heap_growth_factor < 2 ^ 64) :
    gcGrowHeap g =
      gcAddHeaps
        (g.heaps.length * g.config.heap_growth_factor + 1 - g.heaps.length)
        g := by
  unfold gcGrowHeap
  have hLM : g.heaps.length ≤ g.heaps.length * g.config.heap_growth_factor :=
    Nat.le_mul_of_pos_right _ (by omega)
  have hL : g.heaps.length < 2 ^ 64 := by omega
  rw [Nat.mod_eq_of_lt hL, Nat.mod_eq_of_lt hfb,
    Nat.mod_eq_of_lt hb]
  have : (g.heaps.length * g.config.heap_growth_factor + 1 +
      (2 ^ 64 - g.heaps.length)) % 2 ^ 64 =
      g.heaps.length * g.config.heap_growth_factor + 1 - g.heaps.length := by
    omega
  rw [this]

lemma gcGrowHeap_free (g : GCState)
    (hc : 1 ≤ g.config.heap_cell_count)
    (hf : 1 ≤ g.config.heap_growth_factor)
    (hb : g.heaps.length * g.config.heap_growth_factor + 1 < 2 ^ 64)
    (hfb : g.config.heap_growth_factor < 2 ^ 64) :
    (gcGrowHeap g).free_cell ≠ 0 := by
  rw [gcGrowHeap_toAdd g hf hb hfb]
  have hLM : g.heaps.length ≤ g.heaps.length * g.config.heap_growth_factor :=
    Nat.le_mul_of_pos_right _ (by omega)
  exact gcAddHeaps_free _ g hc (by omega)

/-- `this->free_cell = this->free_cell->free.next`: the state after the pop. -/
def gcPopState (g : GCState) : GCState :=
  { g with free_cell := readFreeNext (g.cells g.free_cell) }

/-- `this->remaining_free_cells--` with `size_t` wrap-around. -/
def gcDecRemaining (g : GCState) : GCState :=
  { g with remaining_free_cells :=
      (g.remaining_free_cells + (2 ^ 64 - 1)) % 2 ^ 64 }

/-- The collect-then-maybe-grow cascade inside `allocate`. -/
def gcCollectGrow (roots : List Nat) (g : GCState) : GCState :=
  if (gcCollect roots g).1.free_cell = 0 then gcGrowHeap (gcCollect roots g).1
  else (gcCollect roots g).1

/-- The observable outcome of one `allocate()` call. -/
structure AllocResult where
  cell : Nat
  state : GCState
  didCollect : Bool
  reportedFailure : Bool

/-- `GarbageCollector::allocate()`.  `cell = free_cell;
free_cell = free_cell->free.next;` — dereferencing a null `free_cell`
crashes, modelled as `none`.  Then if the freelist is empty or
`remaining_free_cells <= min_free_cells`, run `collect()`; if the freelist
is still empty, `grow_heap()`; if it is STILL empty, print
"Failed to expand heap, the next allocation will cause a segfault." on the
error stream (`reportedFailure`) — and in every non-crashing case decrement
`remaining_free_cells` and return the popped cell. -/
def gcAllocate (roots : List Nat) (g : GCState) : Option AllocResult :=
  if g.free_cell = 0 then none
  else if (gcPopState g).free_cell = 0 ∨
      (gcPopState g).remaining_free_cells ≤
        (gcPopState g).config.min_free_cells then
    some ⟨g.free_cell, gcDecRemaining (gcCollectGrow roots (gcPopState g)),
      true, (gcCollectGrow roots (gcPopState g)).free_cell == 0⟩
  else
    some ⟨g.free_cell, gcDecRemaining (gcPopState g), false, false⟩

/-- A collector state whose single one-cell arena is exhausted and whose
growth factor is zero, so collection and growth both fail to produce a
free cell. -/
def gcFailState : GCState :=
  { cells := fun _ => ⟨false, false, false, .dead 0⟩,
    heaps := [[1]],
    free_cell := 1,
    remaining_free_cells := 1,
    config := ⟨1, 0, 0⟩ }

/-- An empty collector state with a null freelist head. -/
def gcEmptyState : GCState :=
  { cells := fun _ => ⟨false, false, false, .dead 0⟩,
    heaps := [],
    free_cell := 0,
    remaining_free_cells := 0,
    config := ⟨0, 0, 0⟩ }

/-- Allocation failure after growth is NOT fatal: on `gcFailState` the
pop empties the freelist, the collection frees nothing, growth adds no
arena, the failure message is printed — and `allocate` still returns the
popped cell with an empty freelist left behind. -/
theorem allocate_failure_not_fatal :
    (gcAllocate [] gcFailState).map
      (fun r => (r.cell, r.didCollect, r.reportedFailure,
        r.state.free_cell)) = some (1, true, true, 0) := by
  decide

lemma gcPopState_free (g : GCState) :
    (gcPopState g).free_cell = readFreeNext (g.cells g.free_cell) := rfl

lemma gcPopState_rem (g : GCState) :
    (gcPopState g).remaining_free_cells = g.remaining_free_cells := rfl

lemma gcPopState_cfg (g : GCState) : (gcPopState g).config = g.config := rfl

lemma gcPopState_heaps (g : GCState) : (gcPopState g).heaps = g.heaps := rfl

lemma gcPopState_cells (g : GCState) : (gcPopState g).cells = g.cells := rfl

lemma gcDecRemaining_free (g : GCState) :
    (gcDecRemaining g).free_cell = g.free_cell := by
  cases g; rfl

lemma gcDecRemaining_heaps (g : GCState) :
    (gcDecRemaining g).heaps = g.heaps := by
  cases g; rfl

lemma gcDecRemaining_cells (g : GCState) :
    (gcDecRemaining g).cells = g.cells := by
  cases g; rfl

/-- `allocate` crashes (dereferences a null freelist head) exactly when the
freelist is empty at entry. -/
lemma gcAllocate_none_iff (roots : List Nat) (g : GCState) :
    gcAllocate roots g = none ↔ g.free_cell = 0 := by
  by_cases h0 : g.free_cell = 0
  · simp [gcAllocate, h0]
  · by_cases hguard : (gcPopState g).free_cell = 0 ∨
        (gcPopState g).remaining_free_cells ≤
          (gcPopState g).config.min_free_cells
    · rw [gcAllocate, if_neg h0, if_pos hguard]
      constructor
      · intro hx; cases hx
      · intro hx; exact absurd hx h0
    · rw [gcAllocate, if_neg h0, if_neg hguard]
      constructor
      · intro hx; cases hx
      · intro hx; exact absurd hx h0

/-- With a sane configuration the collect-then-grow cascade always ends
with a nonempty freelist. -/
lemma gcCollectGrow_free_of_sane (roots : List Nat) (g : GCState)
    (hc : 1 ≤ g.config.heap_cell_count)
    (hf : 1 ≤ g.config.heap_growth_factor)
    (hb2 : g.heaps.length * g.config.heap_growth_factor + 1 < 2 ^ 64)
    (hfb : g.config.heap_growth_factor < 2 ^ 64) :
    (gcCollectGrow roots (gcPopState g)).free_cell ≠ 0 := by
  unfold gcCollectGrow
  by_cases h2 : (gcCollect roots (gcPopState g)).1.free_cell = 0
  · rw [if_pos h2]
    have hh := (gcCollect_preserve roots (gcPopState g)).1
    have hcf := (gcCollect_preserve roots (gcPopState g)).2
    apply gcGrowHeap_free
    · rw [hcf, gcPopState_cfg]; exact hc
    · rw [hcf, gcPopState_cfg]; exact hf
    · rw [hh, hcf, gcPopState_cfg, gcPopState_heaps]; exact hb2
    · rw [hcf, gcPopState_cfg]; exact hfb
  · rw [if_neg h2]; exact h2

/-- When the collection leaves an empty freelist, growing multiplies the
arena count by the growth factor and adds one more arena. -/
lemma gcCollectGrow_heaps_len (roots : List Nat) (g : GCState)
    (h2 : (gcCollect roots (gcPopState g)).1.free_cell = 0)
    (hf : 1 ≤ g.config.heap_growth_factor)
    (hb2 : g.heaps.length * g.config.heap_growth_factor + 1 < 2 ^ 64)
    (hfb : g.config.heap_growth_factor < 2 ^ 64) :
    (gcCollectGrow roots (gcPopState g)).heaps.length =
      g.heaps.length * g.config.heap_growth_factor + 1 := by
  unfold gcCollectGrow
  rw [if_pos h2]
  have hh := (gcCollect_preserve roots (gcPopState g)).1
  have hcf := (gcCollect_preserve roots (gcPopState g)).2
  rw [gcGrowHeap_toAdd _
    (by rw [hcf, gcPopState_cfg]; exact hf)
    (by rw [hh, hcf, gcPopState_cfg, gcPopState_heaps]; exact hb2)
    (by rw [hcf, gcPopState_cfg]; exact hfb)]
  rw [gcAddHeaps_heaps_len, hh, gcPopState_heaps, hcf, gcPopState_cfg]
  have hLM : g.heaps.length ≤ g.heaps.length * g.config.heap_growth_factor :=
    Nat.le_mul_of_pos_right _ (by omega)
  omega

/-- **C2 (amended).** `allocate()` pops and returns the freelist head — a
null head is dereferenced (a crash, modelled as `none`).  When after the pop
the freelist is empty or the count of remaining free cells is at or below
`min_free_cells`, it synchronously runs a collection, and if the freelist is
still empty afterwards it grows the heap by adding arenas (one plus the old
arena count times the growth factor, in total); with a sane configuration
(nonempty arenas, growth factor at least one, no `size_t` overflow) growth
always yields a free cell and no failure is reported.  If even growth yields
no free cell, the failure is NOT fatal: `allocate` reports it on the error
stream and still returns the popped cell, leaving an empty freelist on which
the next allocation crashes. -/
theorem allocate_spec (roots : List Nat) (g : GCState) :
    (gcAllocate roots g = none ↔ g.free_cell = 0) ∧
    (∀ r, gcAllocate roots g = some r →
      r.cell = g.free_cell ∧
      (r.didCollect = true ↔
        (readFreeNext (g.cells g.free_cell) = 0 ∨
         g.remaining_free_cells ≤ g.config.min_free_cells)) ∧
      (r.didCollect = false →
        r.state.cells = g.cells ∧ r.state.heaps = g.heaps ∧
        r.state.free_cell = readFreeNext (g.cells g.free_cell) ∧
        r.state.free_cell ≠ 0) ∧
      (1 ≤ g.config.heap_cell_count → 1 ≤ g.config.heap_growth_factor →
        g.heaps.length * g.config.heap_growth_factor + 1 < 2 ^ 64 →
        g.config.heap_growth_factor < 2 ^ 64 →
        r.reportedFailure = false) ∧
      (r.reportedFailure = false → r.state.free_cell ≠ 0) ∧
      (r.reportedFailure = true →
        r.state.free_cell = 0 ∧
        ∀ roots2, gcAllocate roots2 r.state = none) ∧
      (r.didCollect = true →
        (gcCollect roots (gcPopState g)).1.free_cell = 0 →
        1 ≤ g.config.heap_growth_factor →
        g.heaps.length * g.config.heap_growth_factor + 1 < 2 ^ 64 →
        g.config.heap_growth_factor < 2 ^ 64 →
        r.state.heaps.length =
          g.heaps.length * g.config.heap_growth_factor + 1)) := by
  refine ⟨gcAllocate_none_iff roots g, ?_⟩
  by_cases h0 : g.free_cell = 0
  · intro r hr
    rw [(gcAllocate_none_iff roots g).mpr h0] at hr
    cases hr
  · by_cases hguard : (gcPopState g).free_cell = 0 ∨
        (gcPopState g).remaining_free_cells ≤
          (gcPopState g).config.min_free_cells
    · have heq : gcAllocate roots g =
          some ⟨g.free_cell,
            gcDecRemaining (gcCollectGrow roots (gcPopState g)), true,
            (gcCollectGrow roots (gcPopState g)).free_cell == 0⟩ := by
        rw [gcAllocate, if_neg h0, if_pos hguard]
      intro r hr
      rw [heq] at hr
      obtain rfl : r = ⟨g.free_cell,
          gcDecRemaining (gcCollectGrow roots (gcPopState g)), true,
          (gcCollectGrow roots (gcPopState g)).free_cell == 0⟩ :=
        (Option.some.injEq _ _).mp hr.symm
      rw [gcPopState_free, gcPopState_rem, gcPopState_cfg] at hguard
      dsimp only
      refine ⟨rfl, ?_, ?_, ?_, ?_, ?_, ?_⟩
      · exact ⟨fun _ => hguard, fun _ => rfl⟩
      · intro hx
        cases hx
      · -- sane configuration: no failure reported
        intro hc hf hb2 hfb
        have hne := gcCollectGrow_free_of_sane roots g hc hf hb2 hfb
        simp [hne]
      · -- no failure reported means a usable freelist
        intro hrf
        rw [gcDecRemaining_free]
        simpa using hrf
      · -- a reported failure leaves an empty freelist: next allocate crashes
        intro hrf
        have hz : (gcCollectGrow roots (gcPopState g)).free_cell = 0 := by
          simpa using hrf
        refine ⟨?_, ?_⟩
        · rw [gcDecRemaining_free]; exact hz
        · intro roots2
          apply (gcAllocate_none_iff roots2 _).mpr
          rw [gcDecRemaining_free]; exact hz
      · -- growth adds `old * factor + 1 - old` arenas
        intro _ h2 hf hb2 hfb
        rw [gcDecRemaining_heaps]
        exact gcCollectGrow_heaps_len roots g h2 hf hb2 hfb
    · have heq : gcAllocate roots g =
          some ⟨g.free_cell, gcDecRemaining (gcPopState g), false, false⟩ := by
        rw [gcAllocate, if_neg h0, if_neg hguard]
      intro r hr
      rw [heq] at hr
      obtain rfl : r = ⟨g.free_cell, gcDecRemaining (gcPopState g),
          false, false⟩ :=
        (Option.some.injEq _ _).mp hr.symm
      rw [gcPopState_free, gcPopState_rem, gcPopState_cfg] at hguard
      push_neg at hguard
      dsimp only
      refine ⟨rfl, ?_, ?_, ?_, ?_, ?_, ?_⟩
      · refine ⟨?_, ?_⟩
        · intro hx; cases hx
        · intro hg2
          rcases hg2 with hg2 | hg2
          · exact absurd hg2 hguard.1
          · exact absurd hg2 (by omega)
      · intro _
        refine ⟨?_, ?_, ?_, ?_⟩
        · rw [gcDecRemaining_cells, gcPopState_cells]
        · rw [gcDecRemaining_heaps, gcPopState_heaps]
        · rw [gcDecRemaining_free, gcPopState_free]
        · rw [gcDecRemaining_free, gcPopState_free]; exact hguard.1
      · intro _ _ _ _
        rfl
      · intro _
        rw [gcDecRemaining_free, gcPopState_free]
        exact hguard.1
      · intro hx
        cases hx
      · intro hx
        cases hx

/-- `allocate_spec` at the empty collector state: the null freelist head is
dereferenced, so the allocation crashes. -/
theorem allocate_spec_witness : gcAllocate [] gcEmptyState = none :=
  (allocate_spec [] gcEmptyState).1.mpr rfl

end Charly
